import Mathlib

/-!
Verification of the flatex-pdf-downloader repository.

This file gives a shallow embedding, in Lean 4, of the pure core of the
repository (src/parse_utils.py, src/download.py, and the row orchestrator of
flatex_pdf_downloader.py) and proves the specification claims about it.

Conventions:
* Python strings are Lean `String`s; most work happens on `List Char` via
  `String.data`.
* Python bytes are `List Nat` (each entry < 256).
* Fallible Python operations (network fetches, the iframe warm-up, file
  writes) are modelled as `Except String` values supplied by an environment
  record; an uncaught Python exception is an `Except.error` that propagates.
* Where a Python stdlib routine is used by the source, the corresponding
  Lean definition is a faithful model of that routine's documented behaviour
  on the inputs the program can produce (comments note the few corners that
  are elided, none of which the claims exercise).

The spec's design notes declare the refactored modular variant
(src/parse_utils.py, src/download.py) authoritative where it and the inline
script flatex_pdf_downloader.py disagree; the embeddings below follow it.
-/

/-- Python `str.strip()` whitespace class, restricted to the ASCII whitespace
characters. Python strips all Unicode whitespace; the extra Unicode
whitespace characters are outside the safe class `[A-Za-z0-9._-]`, are
collapsed to `_` by the substitution step and then trimmed, so every use in
this development produces the same final result. -/
def wsChar (c : Char) : Bool :=
  c = ' ' || c = '\t' || c = '\n' || c = '\x0d' || c = '\x0b' || c = '\x0c'

/-- The character class `[A-Za-z0-9._-]` of src/parse_utils.py. -/
def safeChar (c : Char) : Bool :=
  c.isAlphanum || c = '.' || c = '_' || c = '-'

/-- Characters stripped by `strip("._")` / `rstrip("._")` in the source. -/
def duChar (c : Char) : Bool :=
  c = '.' || c = '_'

/-- Python `str.strip()` on a character list: drop leading and trailing
whitespace. -/
def pyStripL (l : List Char) : List Char :=
  (l.dropWhile wsChar).rdropWhile wsChar

/-- Python `str.strip()` on strings. -/
def pyStrip (s : String) : String :=
  String.mk (pyStripL s.data)

/-- Worker for `re.sub(r"[^A-Za-z0-9._-]+", "_", ...)`: each maximal run of
unsafe characters becomes a single `_`. The flag records whether we are
inside an unsafe run whose `_` has already been emitted. -/
def collapseGo : Bool → List Char → List Char
  | _, [] => []
  | inRun, c :: cs =>
    if safeChar c then c :: collapseGo false cs
    else if inRun then collapseGo true cs else '_' :: collapseGo true cs

/-- `re.sub(r"[^A-Za-z0-9._-]+", "_", ...)` from src/parse_utils.py. -/
def collapseUnsafe (l : List Char) : List Char :=
  collapseGo false l

/-- Python `str.strip("._")` on a character list. -/
def stripDUL (l : List Char) : List Char :=
  (l.dropWhile duChar).rdropWhile duChar

/-- Split a file name (no `/` inside) into `(PurePosixPath(name).stem,
PurePosixPath(name).suffix)`. pathlib takes the suffix to start at the last
dot, provided that dot is neither the first nor the last character of the
name; otherwise the suffix is empty and the stem is the whole name. -/
def splitExtL (l : List Char) : List Char × List Char :=
  let j := (l.rtakeWhile (· ≠ '.')).length
  if 0 < j ∧ j + 1 < l.length then
    (l.take (l.length - j - 1), l.drop (l.length - j - 1))
  else
    (l, [])

/-- `PurePosixPath(name).stem` for a slash-free name. -/
def pathStem (s : String) : String :=
  String.mk (splitExtL s.data).1

/-- `PurePosixPath(name).suffix` for a slash-free name. -/
def pathSuffix (s : String) : String :=
  String.mk (splitExtL s.data).2

/-- `sanitize_filename` of src/parse_utils.py on character lists.
Source:
  safe = re.sub(r"[^A-Za-z0-9._-]+", "_", name.strip())
  safe = safe.strip("._")
  if not safe: return "document.pdf"
  stem, ext = Path(safe).stem, Path(safe).suffix
  stem = stem.rstrip("._")
  if not stem: stem = "document"
  if not ext: ext = ".pdf"
  return f"(stem)(ext)"   -- an f-string concatenation
`safe` contains no `/` (every `/` was replaced by `_`), so `Path(safe)` is a
single-component path and `splitExtL` models its stem/suffix. -/
def sanitizeL (name : List Char) : List Char :=
  let safe := stripDUL (collapseUnsafe (pyStripL name))
  if safe.isEmpty then "document.pdf".data
  else
    let se := splitExtL safe
    let stem1 := se.1.rdropWhile duChar
    let stem2 := if stem1.isEmpty then "document".data else stem1
    let ext := if se.2.isEmpty then ".pdf".data else se.2
    stem2 ++ ext

/-- `sanitize_filename` of src/parse_utils.py (the variant the spec declares
authoritative; the inline script's copy lacks the stem/extension defaults). -/
def sanitize_filename (name : String) : String :=
  String.mk (sanitizeL name.data)

/-- Little-endian decimal digits of `n` as characters, with explicit fuel
(`n` itself is enough fuel, since the value shrinks by a factor of ten each
step). Empty for `n = 0`. -/
def natDigitsRev : Nat → Nat → List Char
  | 0, _ => []
  | _ + 1, 0 => []
  | fuel + 1, n + 1 => Nat.digitChar ((n + 1) % 10) :: natDigitsRev fuel ((n + 1) / 10)

/-- Python `str(n)` for a non-negative integer: plain decimal digits. -/
def pyStrNat (n : Nat) : String :=
  if n = 0 then "0" else String.mk (natDigitsRev n n).reverse

/-- Exactly `w` little-endian lowercase hex digits of `n` (as in a fixed-width
field of `hexdigest()`). -/
def hexRev : Nat → Nat → List Char
  | 0, _ => []
  | w + 1, n => Nat.digitChar (n % 16) :: hexRev w (n / 16)

/-- A 32-bit word as 8 lowercase hex characters, most significant first. -/
def hexWord32 (n : Nat) : List Char :=
  (hexRev 8 n).reverse

/-- UTF-8 encoding of one Unicode scalar value (Python `str.encode("utf-8")`
acts per character; Lean `Char` carries exactly a scalar value). -/
def utf8EncodeChar (c : Char) : List Nat :=
  let v := c.toNat
  if v < 0x80 then [v]
  else if v < 0x800 then [0xC0 + v / 0x40, 0x80 + v % 0x40]
  else if v < 0x10000 then [0xE0 + v / 0x1000, 0x80 + v / 0x40 % 0x40, 0x80 + v % 0x40]
  else [0xF0 + v / 0x40000, 0x80 + v / 0x1000 % 0x40, 0x80 + v / 0x40 % 0x40, 0x80 + v % 0x40]

/-- Python `str.encode("utf-8")` as a byte list. -/
def utf8Encode (s : String) : List Nat :=
  (s.data.map utf8EncodeChar).flatten

/-- Is `b` a byte in the inclusive range `[lo, hi]`? -/
def byteIn (lo hi b : Nat) : Bool :=
  lo ≤ b && b ≤ hi

/-- One step of UTF-8 decoding with `errors="replace"`: given a lead byte
`b` and the remaining bytes, return the decoded character (U+FFFD for an
ill-formed maximal subpart) and how many of the remaining bytes were
consumed in addition to `b`. -/
def utf8Step (b : Nat) (rest : List Nat) : Char × Nat :=
  if b < 0x80 then (Char.ofNat b, 0)
  else if byteIn 0xC2 0xDF b then
    match rest with
    | c1 :: _ =>
      if byteIn 0x80 0xBF c1 then (Char.ofNat ((b - 0xC0) * 0x40 + (c1 - 0x80)), 1)
      else ('\uFFFD', 0)
    | [] => ('\uFFFD', 0)
  else if byteIn 0xE0 0xEF b then
    let lo := if b = 0xE0 then 0xA0 else 0x80
    let hi := if b = 0xED then 0x9F else 0xBF
    match rest with
    | c1 :: r1 =>
      if byteIn lo hi c1 then
        match r1 with
        | c2 :: _ =>
          if byteIn 0x80 0xBF c2 then
            (Char.ofNat ((b - 0xE0) * 0x1000 + (c1 - 0x80) * 0x40 + (c2 - 0x80)), 2)
          else ('\uFFFD', 1)
        | [] => ('\uFFFD', 1)
      else ('\uFFFD', 0)
    | [] => ('\uFFFD', 0)
  else if byteIn 0xF0 0xF4 b then
    let lo := if b = 0xF0 then 0x90 else 0x80
    let hi := if b = 0xF4 then 0x8F else 0xBF
    match rest with
    | c1 :: r1 =>
      if byteIn lo hi c1 then
        match r1 with
        | c2 :: r2 =>
          if byteIn 0x80 0xBF c2 then
            match r2 with
            | c3 :: _ =>
              if byteIn 0x80 0xBF c3 then
                (Char.ofNat
                    ((b - 0xF0) * 0x40000 + (c1 - 0x80) * 0x1000 + (c2 - 0x80) * 0x40 +
                      (c3 - 0x80)),
                  3)
              else ('\uFFFD', 2)
            | [] => ('\uFFFD', 2)
          else ('\uFFFD', 1)
        | [] => ('\uFFFD', 1)
      else ('\uFFFD', 0)
    | [] => ('\uFFFD', 0)
  else ('\uFFFD', 0)

/-- Fuel-driven worker for the UTF-8 replace decoder; every step consumes at
least the lead byte, so fuel equal to the byte count never runs out. -/
def utf8DecodeGo : Nat → List Nat → List Char
  | 0, _ => []
  | _ + 1, [] => []
  | fuel + 1, b :: rest =>
    (utf8Step b rest).1 :: utf8DecodeGo fuel (rest.drop (utf8Step b rest).2)

/-- UTF-8 decoding with `errors="replace"` (what Python `bytes.decode("utf-8",
"replace")` and hence `urllib.parse.unquote` use): well-formed sequences
decode normally, every maximal ill-formed subpart yields one U+FFFD. -/
def utf8DecodeReplace (l : List Nat) : List Char :=
  utf8DecodeGo l.length l

/-- ASCII hex digit test (the digits `urllib.parse.unquote` accepts in `%hh`). -/
def isHexChar (c : Char) : Bool :=
  ('0' ≤ c && c ≤ '9') || ('a' ≤ c && c ≤ 'f') || ('A' ≤ c && c ≤ 'F')

/-- Value of an ASCII hex digit. -/
def hexCharVal (c : Char) : Nat :=
  if '0' ≤ c && c ≤ '9' then c.toNat - '0'.toNat
  else if 'a' ≤ c && c ≤ 'f' then c.toNat - 'a'.toNat + 10
  else c.toNat - 'A'.toNat + 10

/-- Worker for `urllib.parse.unquote`: `acc` holds the bytes of the current
maximal run of `%hh` escapes, flushed through the UTF-8 replace decoder when
the run ends. Invalid escapes pass through literally. -/
def pyUnquoteGo : List Nat → List Char → List Char
  | acc, '%' :: h1 :: h2 :: rest =>
    if isHexChar h1 && isHexChar h2 then
      pyUnquoteGo (acc ++ [hexCharVal h1 * 16 + hexCharVal h2]) rest
    else utf8DecodeReplace acc ++ '%' :: pyUnquoteGo [] (h1 :: h2 :: rest)
  | acc, c :: rest => utf8DecodeReplace acc ++ c :: pyUnquoteGo [] rest
  | acc, [] => utf8DecodeReplace acc

/-- `urllib.parse.unquote` with the default `utf-8`/`replace` arguments, on
character lists. -/
def pyUnquoteL (l : List Char) : List Char :=
  pyUnquoteGo [] l

/-- `urllib.parse.unquote` on strings. -/
def unquote (s : String) : String :=
  String.mk (pyUnquoteL s.data)

/-- Python `str.lower()`, restricted to ASCII case folding (the only kind the
program's inputs exercise; full Unicode folding differs only on non-ASCII
letters, which never appear in the compared literals). -/
def pyLower (s : String) : String :=
  String.mk (s.data.map Char.toLower)

/-- Python `str.endswith(suffix)`. -/
def pyEndsWith (s sfx : String) : Bool :=
  sfx.data.isSuffixOf s.data

/-- Split at the first occurrence of `sep`: `none` when absent, otherwise
`(before, after)` with the separator removed (Python `str.split(sep, 1)` /
`str.partition`). -/
def splitOnFirst (sep : Char) (l : List Char) : Option (List Char × List Char) :=
  match l.dropWhile (· ≠ sep) with
  | [] => none
  | _ :: post => some (l.takeWhile (· ≠ sep), post)

/-- Worker for `str.split(sep)`: `acc` holds the current chunk reversed. -/
def splitAllGo (sep : Char) : List Char → List Char → List (List Char)
  | acc, [] => [acc.reverse]
  | acc, c :: rest =>
    if c = sep then acc.reverse :: splitAllGo sep [] rest
    else splitAllGo sep (c :: acc) rest

/-- Python `str.split(sep)` keeping empty chunks (`"".split(sep) == [""]`). -/
def splitAll (sep : Char) (l : List Char) : List (List Char) :=
  splitAllGo sep [] l

/-- The parsed components returned by `urllib.parse.urlparse`. -/
structure UrlParts where
  scheme : String
  netloc : String
  path : String
  params : String
  query : String
  fragment : String
deriving Repr, DecidableEq

/-- WHATWG "C0 control or space" characters, stripped from both ends of a URL
by `urllib.parse.urlsplit`. -/
def c0OrSpace (c : Char) : Bool :=
  c.toNat ≤ 0x20

/-- The unsafe bytes `urlsplit` removes everywhere in the URL. -/
def tabCrLf (c : Char) : Bool :=
  c = '\t' || c = '\x0d' || c = '\n'

/-- Characters allowed after the first character of a URL scheme. -/
def schemeChar (c : Char) : Bool :=
  c.isAlphanum || c = '+' || c = '-' || c = '.'

/-- `urllib.parse.urlsplit(url, scheme=default)` with `allow_fragments=True`
(`params` is left empty; `pyUrlparse` fills it). The stdlib's rejection of
mismatched IPv6 brackets and of non-ASCII digits in the netloc (both raise
`ValueError`) is not modelled; no claim exercises those inputs. -/
def pyUrlsplit (url0 : String) (defaultScheme : String) : UrlParts :=
  let url1 := (((url0.data.dropWhile c0OrSpace).rdropWhile c0OrSpace).filter
    (fun c => !tabCrLf c))
  let schemeRest :=
    match splitOnFirst ':' url1 with
    | some (pre, post) =>
      match pre with
      | c0 :: _ =>
        if c0.isAlpha && pre.all schemeChar then (pre.map Char.toLower, post)
        else (defaultScheme.data, url1)
      | [] => (defaultScheme.data, url1)
    | none => (defaultScheme.data, url1)
  let rest1 := schemeRest.2
  let netlocRest :=
    match rest1 with
    | '/' :: '/' :: r =>
      ((r.takeWhile fun c => c ≠ '/' && c ≠ '?' && c ≠ '#'),
        (r.dropWhile fun c => c ≠ '/' && c ≠ '?' && c ≠ '#'))
    | _ => ([], rest1)
  let fragSplit :=
    match splitOnFirst '#' netlocRest.2 with
    | some (pre, post) => (pre, post)
    | none => (netlocRest.2, [])
  let querySplit :=
    match splitOnFirst '?' fragSplit.1 with
    | some (pre, post) => (pre, post)
    | none => (fragSplit.1, [])
  { scheme := String.mk schemeRest.1
    netloc := String.mk netlocRest.1
    path := String.mk querySplit.1
    params := ""
    query := String.mk querySplit.2
    fragment := String.mk fragSplit.2 }

/-- `urllib.parse._splitparams`: split `;params` off the last path segment. -/
def splitParamsL (path : List Char) : List Char × List Char :=
  let tail := path.rtakeWhile (· ≠ '/')
  match splitOnFirst ';' tail with
  | none => (path, [])
  | some (a, b) => (path.take (path.length - tail.length) ++ a, b)

/-- `urllib.parse.urlparse(url, scheme=default)`: `urlsplit` plus the params
split. -/
def pyUrlparse (url : String) (defaultScheme : String) : UrlParts :=
  let sp := pyUrlsplit url defaultScheme
  let pp := splitParamsL sp.path.data
  { sp with path := String.mk pp.1, params := String.mk pp.2 }

/-- `urlparse(url).hostname or ""` as used by `is_allowed_download_url`: the
part of the netloc after the last `@`, inside brackets when present or up to
the first `:` otherwise, lowercased; `""` when absent. -/
def pyHostname (url : String) : String :=
  let netloc := (pyUrlparse url "").netloc.data
  let hostinfo := (netloc.reverse.takeWhile (· ≠ '@')).reverse
  let host :=
    if hostinfo.contains '[' then ((hostinfo.dropWhile (· ≠ '[')).drop 1).takeWhile (· ≠ ']')
    else hostinfo.takeWhile (· ≠ ':')
  String.mk (host.map Char.toLower)

/-- `ALLOWED_DOWNLOAD_HOSTS` of src/parse_utils.py. -/
def ALLOWED_DOWNLOAD_HOSTS : List String :=
  ["konto.flatex.at", "konto.flatex.de"]

/-- `is_allowed_download_url` of src/parse_utils.py:
  host = urlparse(url).hostname or ""
  return host.lower() in ALLOWED_DOWNLOAD_HOSTS -/
def is_allowed_download_url (url : String) : Bool :=
  ALLOWED_DOWNLOAD_HOSTS.contains (pyLower (pyHostname url))

/-- Python `str.replace("+", " ")` as applied by `parse_qsl` before
unquoting. -/
def plusToSpace (l : List Char) : List Char :=
  l.map fun c => if c = '+' then ' ' else c

/-- `urllib.parse.parse_qsl(qs)` with default arguments: split on `&`, skip
empty chunks, skip chunks without `=`, skip pairs whose raw value is empty,
then `+`-to-space and percent-decode names and values. -/
def qsPairs (q : List Char) : List (String × String) :=
  (splitAll '&' q).filterMap fun chunk =>
    if chunk.isEmpty then none
    else
      match splitOnFirst '=' chunk with
      | none => none
      | some (n, v) =>
        if v.isEmpty then none
        else some (String.mk (pyUnquoteL (plusToSpace n)), String.mk (pyUnquoteL (plusToSpace v)))

/-- `parse_qs(qs)[key]`, as the ordered list of values for `key`; the key is
present in the `parse_qs` dict (with a truthy value) iff this is non-empty. -/
def qsGet (q : List (String × String)) (k : String) : List String :=
  q.filterMap fun p => if p.1 = k then some p.2 else none

/-- Truncate to a 32-bit word. -/
def w32 (n : Nat) : Nat :=
  n % 4294967296

/-- 32-bit left rotation by `k` (0 < k < 32). -/
def rotl32 (k n : Nat) : Nat :=
  w32 (n * 2 ^ k) + n / 2 ^ (32 - k)

/-- 32-bit bitwise complement. -/
def not32 (n : Nat) : Nat :=
  4294967295 - n

/-- An unsigned 64-bit value as 8 big-endian bytes (the SHA-1 length field). -/
def be64 (n : Nat) : List Nat :=
  [n / 2 ^ 56 % 256, n / 2 ^ 48 % 256, n / 2 ^ 40 % 256, n / 2 ^ 32 % 256,
    n / 2 ^ 24 % 256, n / 2 ^ 16 % 256, n / 2 ^ 8 % 256, n % 256]

/-- SHA-1 padding: append `0x80`, zero bytes to 56 mod 64, then the bit
length as 8 big-endian bytes. -/
def sha1Pad (msg : List Nat) : List Nat :=
  msg ++ 0x80 :: List.replicate ((119 - msg.length % 64) % 64) 0 ++ be64 (msg.length * 8)

/-- Group bytes into big-endian 32-bit words (dropping an incomplete tail;
padded input is a multiple of four bytes). -/
def beWords : List Nat → List Nat
  | b0 :: b1 :: b2 :: b3 :: rest =>
    (b0 * 2 ^ 24 + b1 * 2 ^ 16 + b2 * 2 ^ 8 + b3) :: beWords rest
  | _ => []

/-- Extend a SHA-1 message schedule by `k` further words
(`w[i] = rotl1 (w[i-3] xor w[i-8] xor w[i-14] xor w[i-16])`). -/
def sha1Extend (ws : List Nat) : Nat → List Nat
  | 0 => ws
  | k + 1 =>
    let prev := sha1Extend ws k
    let n := prev.length
    prev ++
      [rotl32 1
        (Nat.xor (Nat.xor (prev.getD (n - 3) 0) (prev.getD (n - 8) 0))
          (Nat.xor (prev.getD (n - 14) 0) (prev.getD (n - 16) 0)))]

/-- The SHA-1 running state (a, b, c, d, e). -/
structure Sha1State where
  a : Nat
  b : Nat
  c : Nat
  d : Nat
  e : Nat
deriving Repr, DecidableEq

/-- One SHA-1 round with round index `i` and schedule word `wi`. -/
def sha1Round (st : Sha1State) (i wi : Nat) : Sha1State :=
  let f :=
    if i < 20 then Nat.lor (Nat.land st.b st.c) (Nat.land (not32 st.b) st.d)
    else if i < 40 then Nat.xor (Nat.xor st.b st.c) st.d
    else if i < 60 then
      Nat.lor (Nat.lor (Nat.land st.b st.c) (Nat.land st.b st.d)) (Nat.land st.c st.d)
    else Nat.xor (Nat.xor st.b st.c) st.d
  let k :=
    if i < 20 then 0x5A827999
    else if i < 40 then 0x6ED9EBA1
    else if i < 60 then 0x8F1BBCDC
    else 0xCA62C1D6
  { a := w32 (rotl32 5 st.a + f + st.e + k + wi)
    b := st.a
    c := rotl32 30 st.b
    d := st.c
    e := st.d }

/-- Compress one 64-byte block into the chaining state. -/
def sha1Compress (h : Sha1State) (block : List Nat) : Sha1State :=
  let ws := sha1Extend (beWords block) 64
  let st := (List.range 80).foldl (fun st i => sha1Round st i (ws.getD i 0)) h
  { a := w32 (h.a + st.a), b := w32 (h.b + st.b), c := w32 (h.c + st.c),
    d := w32 (h.d + st.d), e := w32 (h.e + st.e) }

/-- Fuel-driven worker for the 64-byte block cutter. -/
def chunk64Go : Nat → List Nat → List (List Nat)
  | 0, _ => []
  | _ + 1, [] => []
  | fuel + 1, b :: rest => (b :: rest).take 64 :: chunk64Go fuel ((b :: rest).drop 64)

/-- Cut a byte list into 64-byte blocks. -/
def chunk64 (l : List Nat) : List (List Nat) :=
  chunk64Go l.length l

/-- `hashlib.sha1(msg).hexdigest()`: the 40 lowercase hex characters of the
SHA-1 digest. -/
def sha1Hex (msg : List Nat) : String :=
  let final := (chunk64 (sha1Pad msg)).foldl sha1Compress
    ⟨0x67452301, 0xEFCDAB89, 0x98BADCFE, 0x10325476, 0xC3D2E1F0⟩
  String.mk
    (hexWord32 final.a ++ hexWord32 final.b ++ hexWord32 final.c ++ hexWord32 final.d ++
      hexWord32 final.e)

/-- The id-parameter priority list of `build_stable_stem`. -/
def idKeys : List String :=
  ["id", "documentId", "docId", "mailingId", "uuid"]

/-- The `for key in (...): if key in qs and qs[key]: return qs[key][0]` scan
shared by the filename/stem resolvers: first key present with a (truthy,
hence non-empty) value list wins. -/
def firstKeyVal (qs : List (String × String)) : List String → Option String
  | [] => none
  | k :: ks =>
    match qsGet qs k with
    | [] => firstKeyVal qs ks
    | v :: _ => some v

/-- `build_stable_stem` of src/parse_utils.py (the variant the spec declares
authoritative; the inline script's copy lacks the `.pdf` stripping):
  for key in ("id", "documentId", "docId", "mailingId", "uuid"):
      if key in qs and qs[key]:
          value = sanitize_filename(qs[key][0])
          if value.lower().endswith(".pdf"): value = Path(value).stem
          return f"flatex_(value)"
  digest = hashlib.sha1(url.encode("utf-8")).hexdigest()[:12]
  return f"flatex_(digest)" -/
def build_stable_stem (url : String) : String :=
  let qs := qsPairs (pyUrlparse url "").query.data
  match firstKeyVal qs idKeys with
  | some v =>
    let value := sanitize_filename v
    let value2 := if pyEndsWith (pyLower value) ".pdf" then pathStem value else value
    "flatex_" ++ value2
  | none => "flatex_" ++ String.mk ((sha1Hex (utf8Encode url)).data.take 12)

/-- `PurePosixPath(path).name`: the last path component, with empty and `.`
segments dropped (pathlib never keeps them as parts). -/
def pathNameL (path : List Char) : List Char :=
  let segs := (splitAll '/' path).filter fun s => !s.isEmpty && s ≠ ['.']
  match segs.getLast? with
  | some s => s
  | none => []

/-- Case-insensitive (ASCII) prefix test, for the `re.IGNORECASE` literals. -/
def ciIsPrefix : List Char → List Char → Bool
  | [], _ => true
  | _ :: _, [] => false
  | a :: as, b :: bs => (a.toLower == b.toLower) && ciIsPrefix as bs

/-- A `[^\";]+` capture at this position: the maximal non-empty run of
characters other than `"` and `;`. -/
def fnCapAt (l : List Char) : Option (List Char) :=
  match l.takeWhile fun ch => ch ≠ '"' && ch ≠ ';' with
  | [] => none
  | c :: cs => some (c :: cs)

/-- Try `FILENAME_RE = filename\*?=(?:UTF-8;APOS;APOS|\")?([^\";]+)` (with
`re.IGNORECASE`) at the start of `cs`, returning the capture. The optional
group backtracks exactly as `re` does: the `UTF-8` alternative first, then
the quote, then the empty alternative. -/
def matchFilenameAt (cs : List Char) : Option (List Char) :=
  if ciIsPrefix "filename".data cs then
    let r0 := cs.drop 8
    let r1 := match r0 with
      | '*' :: t => t
      | _ => r0
    match r1 with
    | '=' :: r2 =>
      if ciIsPrefix ['u', 't', 'f', '-', '8', '\'', '\''] r2 then
        match fnCapAt (r2.drop 7) with
        | some c => some c
        | none => fnCapAt r2
      else
        match r2 with
        | '"' :: r3 =>
          (match fnCapAt r3 with
          | some c => some c
          | none => fnCapAt r2)
        | _ => fnCapAt r2
    | _ => none
  else none

/-- `FILENAME_RE.search`: leftmost match of the pattern above. -/
def searchFilenameRE : List Char → Option (List Char)
  | [] => none
  | c :: t =>
    match matchFilenameAt (c :: t) with
    | some m => some m
    | none => searchFilenameRE t

/-- Python `dict.get(k, "")` on the (lower-cased-key) header mapping that
Playwright's `response.headers` returns. -/
def headersGet (hs : List (String × String)) (k : String) : String :=
  match hs.find? (fun p => p.1 == k) with
  | some p => p.2
  | none => ""

/-- The query-parameter priority list of the filename resolvers. -/
def fnKeys : List String :=
  ["filename", "file", "name", "documentName", "id"]

/-- The query scan of `filename_from_headers_or_url`: the first present key
wins unconditionally, its value percent-decoded (the `parse_qs` value was
already decoded once; the source decodes again). -/
def qsLoopHdr (qs : List (String × String)) : List String → Option String
  | [] => none
  | k :: ks =>
    match qsGet qs k with
    | [] => qsLoopHdr qs ks
    | v :: _ => some (unquote v)

/-- The query scan of `filename_from_url`: like `qsLoopHdr` but the decoded
value is stripped and, when empty, the scan moves on to the next key. -/
def qsLoopUrl (qs : List (String × String)) : List String → Option String
  | [] => none
  | k :: ks =>
    match qsGet qs k with
    | [] => qsLoopUrl qs ks
    | v :: _ =>
      let c := pyStrip (unquote v)
      if c = "" then qsLoopUrl qs ks else some c

/-- The shared final section of both filename resolvers (their source lines
are identical):
  tail = Path(parsed.path).name
  if tail:
      if not tail.lower().endswith(".pdf"): tail += ".pdf"
      return sanitize_filename(unquote(tail))
  return sanitize_filename(f"(fallback_stem).pdf") -/
def tailOrFallback (parsedPath fallback_stem : String) : String :=
  match pathNameL parsedPath.data with
  | [] => sanitize_filename (fallback_stem ++ ".pdf")
  | c :: cs =>
    let tail := String.mk (c :: cs)
    let tail2 := if !pyEndsWith (pyLower tail) ".pdf" then tail ++ ".pdf" else tail
    sanitize_filename (unquote tail2)

/-- `filename_from_url` of src/parse_utils.py (same text in both variants). -/
def filename_from_url (url fallback_stem : String) : String :=
  let parsed := pyUrlparse url ""
  let qs := qsPairs parsed.query.data
  match qsLoopUrl qs fnKeys with
  | some c =>
    sanitize_filename (if !pyEndsWith (pyLower c) ".pdf" then c ++ ".pdf" else c)
  | none => tailOrFallback parsed.path fallback_stem

/-- `filename_from_headers_or_url` of src/parse_utils.py, with the response
abstracted to its header mapping. Unlike `filename_from_url`, the
Content-Disposition candidate falls through when empty after stripping, and
the query-scan candidates are neither stripped nor emptiness-checked. -/
def filename_from_headers_or_url (headers : List (String × String)) (url fallback_stem : String) :
    String :=
  let hdrCand : Option String :=
    match searchFilenameRE (headersGet headers "content-disposition").data with
    | some m =>
      let c := pyStrip (unquote (String.mk m))
      if c = "" then none else some c
    | none => none
  match hdrCand with
  | some c =>
    sanitize_filename (if !pyEndsWith (pyLower c) ".pdf" then c ++ ".pdf" else c)
  | none =>
    let parsed := pyUrlparse url ""
    let qs := qsPairs parsed.query.data
    match qsLoopHdr qs fnKeys with
    | some c =>
      sanitize_filename (if !pyEndsWith (pyLower c) ".pdf" then c ++ ".pdf" else c)
    | none => tailOrFallback parsed.path fallback_stem

/-- Fuel-driven worker for `str.replace`; every step consumes at least one
character, so fuel equal to the character count never runs out. -/
def replaceAllGo (pat rep : List Char) : Nat → List Char → List Char
  | 0, l => l
  | _ + 1, [] => []
  | fuel + 1, c :: t =>
    if pat.isPrefixOf (c :: t) ∧ pat ≠ [] then
      rep ++ replaceAllGo pat rep fuel (t.drop (pat.length - 1))
    else c :: replaceAllGo pat rep fuel t

/-- Python `str.replace(pat, rep)` for a non-empty `pat`: left-to-right,
non-overlapping (both patterns the program replaces are non-empty; the
empty-pattern case of `str.replace` is not modelled). -/
def replaceAllL (pat rep l : List Char) : List Char :=
  replaceAllGo pat rep l.length l

/-- `urllib.parse.uses_relative`. -/
def usesRelative : List String :=
  ["", "ftp", "http", "gopher", "nntp", "imap", "wais", "file", "https", "shttp",
    "mms", "prospero", "rtsp", "rtsps", "rtspu", "sftp", "svn", "svn+ssh", "ws", "wss"]

/-- `urllib.parse.uses_netloc`. -/
def usesNetloc : List String :=
  ["", "ftp", "http", "gopher", "nntp", "telnet", "imap", "wais", "file", "mms",
    "https", "shttp", "snews", "prospero", "rtsp", "rtsps", "rtspu", "rsync", "svn",
    "svn+ssh", "sftp", "nfs", "git", "git+ssh", "ws", "wss"]

/-- `urllib.parse.urlunsplit`. -/
def urlunsplitS (scheme netloc url query fragment : String) : String :=
  let u1 :=
    if netloc ≠ "" ∨ (url ≠ "" ∧ url.data.take 2 = ['/', '/']) then
      "//" ++ netloc ++ (if url ≠ "" ∧ url.data.take 1 ≠ ['/'] then "/" ++ url else url)
    else url
  let u2 := if scheme ≠ "" then scheme ++ ":" ++ u1 else u1
  let u3 := if query ≠ "" then u2 ++ "?" ++ query else u2
  if fragment ≠ "" then u3 ++ "#" ++ fragment else u3

/-- `urllib.parse.urlunparse`. -/
def urlunparseS (scheme netloc path params query fragment : String) : String :=
  urlunsplitS scheme netloc (if params ≠ "" then path ++ ";" ++ params else path) query fragment

/-- Keep the first and last segment, dropping empty segments in between
(`segments[1:-1] = filter(None, segments[1:-1])`). -/
def filterMiddle (segs : List (List Char)) : List (List Char) :=
  match segs with
  | [] => []
  | [s] => [s]
  | s :: t :: rest =>
    s :: (((t :: rest).dropLast.filter fun x => !x.isEmpty) ++ [(t :: rest).getLastD []])

/-- The `..`/`.` resolution loop of `urljoin` (`pop` on an empty stack is
ignored). -/
def resolveDots (segs : List (List Char)) : List (List Char) :=
  segs.foldl
    (fun acc seg =>
      if seg = ['.', '.'] then acc.dropLast
      else if seg = ['.'] then acc
      else acc ++ [seg])
    []

/-- `urllib.parse.urljoin(base, url)` (with `allow_fragments=True`), the RFC
3986 resolution CPython implements. -/
def urljoin (base url : String) : String :=
  if base = "" then url
  else if url = "" then base
  else
    let b := pyUrlparse base ""
    let u := pyUrlparse url b.scheme
    if u.scheme ≠ b.scheme ∨ ¬ usesRelative.contains u.scheme then url
    else if usesNetloc.contains u.scheme ∧ u.netloc ≠ "" then
      urlunparseS u.scheme u.netloc u.path u.params u.query u.fragment
    else
      let netloc := if usesNetloc.contains u.scheme then b.netloc else u.netloc
      if u.path = "" ∧ u.params = "" then
        let query := if u.query = "" then b.query else u.query
        urlunparseS u.scheme netloc b.path b.params query u.fragment
      else
        let baseParts0 := splitAll '/' b.path.data
        let baseParts :=
          if baseParts0.getLastD [] ≠ [] then baseParts0.dropLast else baseParts0
        let segments :=
          if u.path.data.take 1 = ['/'] then splitAll '/' u.path.data
          else filterMiddle (baseParts ++ splitAll '/' u.path.data)
        let resolved0 := resolveDots segments
        let resolved :=
          if segments.getLastD [] = ['.'] ∨ segments.getLastD [] = ['.', '.'] then
            resolved0 ++ [[]]
          else resolved0
        let joined := List.intercalate ['/'] resolved
        urlunparseS u.scheme netloc (if joined = [] then "/" else String.mk joined) u.params
          u.query u.fragment

/-- `normalize_command_url` of src/parse_utils.py:
  url = url.replace("BACKSLASH/", "/").replace("BACKSLASHu0026", "&")
  return urljoin(base_url, url) -/
def normalize_command_url (url base_url : String) : String :=
  urljoin base_url
    (String.mk (replaceAllL "\\u0026".data "&".data (replaceAllL "\\/".data "/".data url.data)))

/-- The literal prefix of `SCRIPT_PATTERNS[0] = finished\("([^\"]+)",`. -/
def finishedLit : List Char :=
  "finished(\"".data

/-- The literal prefix of `SCRIPT_PATTERNS[1] = display\("([^\"]+)",`. -/
def displayLit : List Char :=
  "display(\"".data

/-- Try one script pattern at the start of `cs`: the literal `lit`, then a
non-empty run of non-quote characters (the capture), then `",`. The greedy
`[^\"]+` cannot backtrack past a quote, so the match here is deterministic. -/
def matchScriptAt (lit cs : List Char) : Option (List Char) :=
  if lit.isPrefixOf cs then
    let r := cs.drop lit.length
    match r.takeWhile (· ≠ '"') with
    | [] => none
    | c :: cap =>
      match r.dropWhile (· ≠ '"') with
      | '"' :: ',' :: _ => some (c :: cap)
      | _ => none
  else none

/-- `pattern.search`: the capture of the leftmost match of a script pattern. -/
def searchScript (lit : List Char) : List Char → Option (List Char)
  | [] => none
  | c :: t =>
    match matchScriptAt lit (c :: t) with
    | some m => some m
    | none => searchScript lit t

/-- `extract_pdf_link_from_script` of src/parse_utils.py: try the `finished`
pattern, then the `display` pattern; normalize the first capture found, or
raise (`RuntimeError`, modelled as `Except.error`) when neither matches. -/
def extract_pdf_link_from_script (script base_url : String) : Except String String :=
  match searchScript finishedLit script.data with
  | some u => .ok (normalize_command_url (String.mk u) base_url)
  | none =>
    match searchScript displayLit script.data with
    | some u => .ok (normalize_command_url (String.mk u) base_url)
    | none => .error "command-invalid: no PDF link pattern matched"

/-- Python `needle in hay` for strings (`"" in s` is true). -/
def hasSubstr : List Char → List Char → Bool
  | [], needle => needle.isEmpty
  | c :: t, needle => needle.isPrefixOf (c :: t) || hasSubstr t needle

/-- A Playwright `APIResponse`, abstracted to the pieces the program reads:
`status`, the lower-cased-key header mapping, and the buffered body bytes. -/
structure PwResponse where
  status : Nat
  headers : List (String × String)
  body : List Nat

/-- `response.ok`: status in the range 200-299 (Playwright's definition, also
the one the repository's test double implements). -/
def PwResponse.ok (r : PwResponse) : Bool :=
  200 ≤ r.status && r.status < 300

/-- The `(ok, message, retriable)` tuple `save_pdf_from_link` returns. -/
structure Outcome where
  success : Bool
  message : String
  retriable : Bool
deriving Repr, DecidableEq

/-- Observable effects of one `save_pdf_from_link` call: how many HTTP GETs
and warm-ups ran, and the name/bytes of the file written (if any). -/
structure SaveTrace where
  gets : Nat
  warmups : Nat
  written : Option (String × List Nat)
deriving Repr, DecidableEq

/-- Environment for one `save_pdf_from_link` call: the outcome of the first
GET, of the warm-up, and of the retried GET (`Except.error` = the Python call
raised), the file names already present in the output directory, and whether
the final `write_bytes`/`stat` succeeds (an `OSError` there is an uncaught
exception). -/
structure DownloadEnv where
  fetch1 : Except String PwResponse
  fetch2 : Except String PwResponse
  warmup : Except String Unit
  existing : List String
  writeOk : Bool

/-- The filename candidate `f"(target.stem)_(i)(target.suffix)"` of the
collision loop. -/
def altCandidate (stem sfx : String) (i : Nat) : String :=
  stem ++ "_" ++ pyStrNat i ++ sfx

/-- The `while True` collision loop: first `i ≥ start` whose candidate is not
an existing file. Fuel `ex.length + 1` always suffices (the candidates are
pairwise distinct, so at most `ex.length` of them can be occupied). -/
def findFreeGo (ex : List String) (stem sfx : String) : Nat → Nat → String
  | 0, i => altCandidate stem sfx i
  | fuel + 1, i =>
    if ex.contains (altCandidate stem sfx i) then findFreeGo ex stem sfx fuel (i + 1)
    else altCandidate stem sfx i

/-- Lines 90-97 of src/download.py: if `name` exists, replace it by the first
free `_2`, `_3`, ... sibling (`target.stem`/`target.suffix` of the joined
path are the stem/suffix of its final component `name`). -/
def resolveCollision (ex : List String) (name : String) : String :=
  if ex.contains name then findFreeGo ex (pathStem name) (pathSuffix name) (ex.length + 1) 2
  else name

/-- Lines 77-100 of src/download.py, from the `response.ok` check on, for a
response `r` obtained after `gets` GETs and `warmups` warm-ups. The success
message elides the `(size KB)` suffix, whose float formatting no claim
depends on. A failing `write_bytes` raises `OSError`, which the function
does not catch. -/
def finishSave (env : DownloadEnv) (link stem : String) (skip_existing : Bool) (r : PwResponse)
    (gets warmups : Nat) : Except String (Outcome × SaveTrace) :=
  if !r.ok then
    .ok (⟨false, "HTTP " ++ pyStrNat r.status, [429, 500, 502, 503, 504].contains r.status⟩,
      ⟨gets, warmups, none⟩)
  else
    let body := r.body
    let ctype := pyLower (headersGet r.headers "content-type")
    if !hasSubstr ctype.data "pdf".data && !([0x25, 0x50, 0x44, 0x46].isPrefixOf body) then
      .ok
        (⟨false, "not a PDF (content-type=" ++ (if ctype = "" then "unknown" else ctype) ++ ")",
            false⟩,
          ⟨gets, warmups, none⟩)
    else
      let name := filename_from_headers_or_url r.headers link stem
      if skip_existing && env.existing.contains name then
        .ok (⟨true, "skipped existing " ++ name, false⟩, ⟨gets, warmups, none⟩)
      else
        let target := resolveCollision env.existing name
        if env.writeOk then
          .ok (⟨true, "saved " ++ target, false⟩, ⟨gets, warmups, some (target, body)⟩)
        else .error "oserror while writing file"

/-- `save_pdf_from_link` of src/download.py (the variant the spec declares
authoritative; the inline script's copy lacks the allow-list check), with the
browser context/page and the filesystem abstracted into `env`. -/
def save_pdf_from_link (env : DownloadEnv) (link : String) (skip_existing : Bool) :
    Except String (Outcome × SaveTrace) :=
  if !is_allowed_download_url link then
    .ok (⟨false, "blocked non-Flatex download host", false⟩, ⟨0, 0, none⟩)
  else
    let stem := build_stable_stem link
    if skip_existing && env.existing.contains (filename_from_url link stem) then
      .ok (⟨true, "skipped existing " ++ filename_from_url link stem, false⟩, ⟨0, 0, none⟩)
    else
      match env.fetch1 with
      | .error e => .ok (⟨false, "request failed: " ++ e, true⟩, ⟨1, 0, none⟩)
      | .ok r1 =>
        if r1.status = 503 then
          match env.warmup with
          | .error e => .ok (⟨false, "503 warm-up failed: " ++ e, true⟩, ⟨1, 1, none⟩)
          | .ok _ =>
            match env.fetch2 with
            | .error e => .ok (⟨false, "503 warm-up failed: " ++ e, true⟩, ⟨2, 1, none⟩)
            | .ok r2 => finishSave env link stem skip_existing r2 2 1
        else finishSave env link stem skip_existing r1 1 0

/-- Environment for one attempt of the per-row loop: the result of
`get_row_pdf_link` (`Except.error` = it raised) and the download
environment for the `save_pdf_from_link` call of that attempt. -/
structure AttemptEnv where
  resolve : Except String String
  dl : DownloadEnv

/-- The loop variables of the per-row retry loop in `main`
(flatex_pdf_downloader.py lines 399-433). -/
structure RowState where
  link : String
  error : String
  rowOk : Bool
  rowMsg : String
  lastLink : String
deriving Repr

/-- Initial values of the loop variables. -/
def initRowState : RowState :=
  ⟨"", "", false, "", ""⟩

/-- The `for attempt in range(1, retries + 1)` loop of `main`: resolve the
link (exceptions caught, loop continues), then download; success breaks,
a retriable failure with attempts remaining retries, anything else breaks.
An `Except.error` from `save_pdf_from_link` is an uncaught exception (the
call is outside the `try`), so it propagates. `remaining` counts the
attempts the `range` still yields. -/
def rowLoopGo (skip : Bool) (retries : Nat) (env : Nat → AttemptEnv) :
    Nat → Nat → RowState → Except String RowState
  | 0, _, st => .ok st
  | remaining + 1, attempt, st =>
    match (env attempt).resolve with
    | .error e => rowLoopGo skip retries env remaining (attempt + 1) { st with error := e }
    | .ok link =>
      match save_pdf_from_link (env attempt).dl link skip with
      | .error e => .error e
      | .ok (out, _) =>
        if out.success then
          .ok { st with link := link, lastLink := link, rowOk := true, rowMsg := out.message }
        else
          let st2 := { st with link := link, lastLink := link, rowMsg := out.message }
          if out.retriable && attempt < retries then
            rowLoopGo skip retries env remaining (attempt + 1) st2
          else .ok st2

/-- One row of `main`'s row loop; `true` iff the row is counted as a
success (`if not link: failed` / `elif row_ok: success` / `else: failed`). -/
def processRow (skip : Bool) (retries : Nat) (env : Nat → AttemptEnv) : Except String Bool :=
  (rowLoopGo skip retries env retries 1 initRowState).map fun st =>
    if st.link = "" then false else st.rowOk

/-- All rows in order, accumulating `(success, failed)`; an uncaught
exception in a row aborts the remaining rows. -/
def processRows (skip : Bool) (retries : Nat) : List (Nat → AttemptEnv) →
    Except String (Nat × Nat)
  | [] => .ok (0, 0)
  | e :: rest => do
    let ok ← processRow skip retries e
    let sf ← processRows skip retries rest
    .ok (if ok then (sf.1 + 1, sf.2) else (sf.1, sf.2 + 1))

/-- How `main` ends when it does not crash: a fatal pre-processing check
(exit code 1 before any row is processed), or completed row processing with
its success/failed counts (the run report of line 447). -/
inductive MainResult
  | fatal
  | done (success failed : Nat)
deriving Repr, DecidableEq

/-- The inputs `main` reads before row processing. -/
structure RunArgs where
  startRow : Int
  endRow : Int
  retries : Nat
  skipExisting : Bool

/-- `main` of flatex_pdf_downloader.py from the archive-state read to the
return (lines 369-450): the three fatal pre-checks each `return 1`; then rows
`start_row - 1 .. end_row - 1` are processed and the function returns 0
regardless of the counts. `rows i` is the attempt environment of the row
with 0-based index `i`. -/
def mainRun (rowCount : Int) (tokenId windowId : String) (args : RunArgs)
    (rows : Nat → Nat → AttemptEnv) : Except String MainResult :=
  if rowCount ≤ 0 then .ok .fatal
  else if tokenId = "" || windowId = "" then .ok .fatal
  else
    let startRow := max 1 args.startRow
    let endRow := if args.endRow ≤ 0 then rowCount else min args.endRow rowCount
    if startRow > endRow then .ok .fatal
    else
      let idxs := List.range' (startRow - 1).toNat (endRow - startRow + 1).toNat
      (processRows args.skipExisting args.retries (idxs.map rows)).map fun sf =>
        .done sf.1 sf.2

/-- The process exit code `sys.exit(main())` uses for a `main` that returned:
1 for every fatal pre-check, 0 once row processing completed (line 450
returns 0 unconditionally). -/
def exitCode : MainResult → Nat
  | .fatal => 1
  | .done _ _ => 0

/-- A capture of a script pattern somewhere in `s`: `s` contains the literal
`lit` followed by a non-empty quote-free capture `u`, a quote and a comma
(the shape `finished("<url>", ...)` / `display("<url>", ...)`). -/
def IsScriptCap (lit s u : List Char) : Prop :=
  ∃ pre post, s = pre ++ lit ++ u ++ '"' :: ',' :: post ∧ u ≠ [] ∧ '"' ∉ u

/-- The leftmost capture of a script pattern in `s`: a capture whose match
starts no later than any other match of the same pattern. -/
def IsLeftmostScriptCap (lit s u : List Char) : Prop :=
  ∃ pre post, s = pre ++ lit ++ u ++ '"' :: ',' :: post ∧ u ≠ [] ∧ '"' ∉ u ∧
    ∀ pre2 u2 post2, s = pre2 ++ lit ++ u2 ++ '"' :: ',' :: post2 → u2 ≠ [] → '"' ∉ u2 →
      pre.length ≤ pre2.length

/-- C1: for every URL whose hostname is not in the allow-list
konto.flatex.at / konto.flatex.de, `save_pdf_from_link` returns the failure
outcome with `retriable = false`, and its trace records zero HTTP GETs, zero
warm-ups, and no file written — whatever the rest of the environment and the
`skip_existing` flag are. -/
theorem C1_save_blocked_host_no_network (env : DownloadEnv) (link : String) (skip : Bool)
    (h : is_allowed_download_url link = false) :
    save_pdf_from_link env link skip =
      .ok (⟨false, "blocked non-Flatex download host", false⟩, ⟨0, 0, none⟩) := by
  simp [save_pdf_from_link, h]

/-- C1 witness: the disallowed host of the repository's own test, with an
environment that would otherwise succeed. -/
theorem C1_witness :
    is_allowed_download_url "https://evil.example/malware.pdf" = false ∧
      save_pdf_from_link
          ⟨.ok ⟨200, [("content-type", "application/pdf")], [0x25, 0x50, 0x44, 0x46]⟩,
            .ok ⟨200, [("content-type", "application/pdf")], [0x25, 0x50, 0x44, 0x46]⟩,
            .ok (), [], true⟩
          "https://evil.example/malware.pdf" false =
        .ok (⟨false, "blocked non-Flatex download host", false⟩, ⟨0, 0, none⟩) :=
  ⟨by decide, C1_save_blocked_host_no_network _ _ _ (by decide)⟩

/-- C4 counterexample: a response whose content-type (`text/html`) does not
contain "pdf" and whose body (`busy`) does not start with `%PDF`, but with
HTTP status 500: `save_pdf_from_link` fails with `retriable = true` (status
500 is in the retriable set), not `retriable = false` — so the claimed
outcome does not hold regardless of the response's HTTP status; the body
check is only reached for 2xx responses. -/
theorem C4_counterexample :
    save_pdf_from_link
        ⟨.ok ⟨500, [("content-type", "text/html")], utf8Encode "busy"⟩,
          .ok ⟨500, [("content-type", "text/html")], utf8Encode "busy"⟩, .ok (), [], true⟩
        "https://konto.flatex.at/downloadData/1/a.pdf" false =
      .ok (⟨false, "HTTP 500", true⟩, ⟨1, 0, none⟩) := by
  rfl

/-- C4 (amended): for every response with a successful (2xx) status whose
content-type does not contain "pdf" and whose body does not start with the
4-byte `%PDF` magic, `save_pdf_from_link` returns a failure outcome with
`retriable = false`, regardless of which 2xx status it is. -/
theorem C4_not_pdf_nonretriable_on_ok (env : DownloadEnv) (link : String) (r : PwResponse)
    (hallow : is_allowed_download_url link = true)
    (hfetch : env.fetch1 = .ok r)
    (h2 : 200 ≤ r.status) (h3 : r.status < 300)
    (hct : hasSubstr (pyLower (headersGet r.headers "content-type")).data "pdf".data = false)
    (hbody : [0x25, 0x50, 0x44, 0x46].isPrefixOf r.body = false) :
    save_pdf_from_link env link false =
      .ok
        (⟨false,
            "not a PDF (content-type=" ++
              (if pyLower (headersGet r.headers "content-type") = "" then "unknown"
                else pyLower (headersGet r.headers "content-type")) ++ ")",
            false⟩,
          ⟨1, 0, none⟩) := by
  have h503 : ¬ r.status = 503 := by omega
  have hok : r.ok = true := by
    simp only [PwResponse.ok, Bool.and_eq_true, decide_eq_true_eq]
    omega
  simp [save_pdf_from_link, finishSave, hallow, hfetch, h503, hok, hct, hbody]

/-- C4 witness: a 200 response carrying `text/html` and a non-PDF body. -/
theorem C4_witness :
    save_pdf_from_link
        ⟨.ok ⟨200, [("content-type", "text/html")], utf8Encode "nope"⟩,
          .ok ⟨200, [("content-type", "text/html")], utf8Encode "nope"⟩, .ok (), [], true⟩
        "https://konto.flatex.at/downloadData/1/a.pdf" false =
      .ok (⟨false, "not a PDF (content-type=text/html)", false⟩, ⟨1, 0, none⟩) :=
  (C4_not_pdf_nonretriable_on_ok _ _ _ (by decide) rfl (by decide) (by decide) (by decide)
      (by decide)).trans
    (by rfl)

/-- C5: for an allow-listed link (not skip-existing) whose first GET returns
status 503: (a) if the warm-up succeeds and the retried GET returns 200 with
PDF content and the write succeeds, the call succeeds with exactly two GETs
(the one retry) and exactly one warm-up; (b) if the warm-up raises, the call
fails retriably after one GET and one warm-up attempt; (c) if the warm-up
succeeds but the retried GET raises, the call fails retriably after two GETs
and one warm-up. -/
theorem C5_warmup_retry_flow (env : DownloadEnv) (link : String) (r1 : PwResponse)
    (hallow : is_allowed_download_url link = true)
    (hfetch1 : env.fetch1 = .ok r1) (h503 : r1.status = 503) :
    (∀ r2 : PwResponse, env.warmup = .ok () → env.fetch2 = .ok r2 → r2.status = 200 →
      hasSubstr (pyLower (headersGet r2.headers "content-type")).data "pdf".data = true →
      env.writeOk = true →
      save_pdf_from_link env link false =
        .ok
          (⟨true,
              "saved " ++
                resolveCollision env.existing
                  (filename_from_headers_or_url r2.headers link (build_stable_stem link)),
              false⟩,
            ⟨2, 1,
              some
                (resolveCollision env.existing
                    (filename_from_headers_or_url r2.headers link (build_stable_stem link)),
                  r2.body)⟩)) ∧
    (∀ e : String, env.warmup = .error e →
      save_pdf_from_link env link false =
        .ok (⟨false, "503 warm-up failed: " ++ e, true⟩, ⟨1, 1, none⟩)) ∧
    (∀ e : String, env.warmup = .ok () → env.fetch2 = .error e →
      save_pdf_from_link env link false =
        .ok (⟨false, "503 warm-up failed: " ++ e, true⟩, ⟨2, 1, none⟩)) := by
  refine ⟨fun r2 hw hf2 hst hct hwr => ?_, fun e hw => ?_, fun e hw hf2 => ?_⟩
  · have hok : r2.ok = true := by
      simp only [PwResponse.ok, Bool.and_eq_true, decide_eq_true_eq]
      omega
    simp [save_pdf_from_link, finishSave, hallow, hfetch1, h503, hw, hf2, hok, hct, hwr]
  · simp [save_pdf_from_link, hallow, hfetch1, h503, hw]
  · simp [save_pdf_from_link, hallow, hfetch1, h503, hw, hf2]

/-- C5 witness: the 503-then-200 scenario of the repository's own tests
(success case and warm-up-failure case). -/
theorem C5_witness :
    save_pdf_from_link
        ⟨.ok ⟨503, [("content-type", "text/plain")], utf8Encode "busy"⟩,
          .ok
            ⟨200,
              [("content-type", "application/pdf"),
                ("content-disposition", "attachment; filename=\"ok.pdf\"")],
              utf8Encode "%PDF-ok"⟩,
          .ok (), [], true⟩
        "https://konto.flatex.at/downloadData/1/ok.pdf" false =
      .ok (⟨true, "saved ok.pdf", false⟩, ⟨2, 1, some ("ok.pdf", utf8Encode "%PDF-ok")⟩) ∧
    save_pdf_from_link
        ⟨.ok ⟨503, [("content-type", "text/plain")], utf8Encode "busy"⟩,
          .ok ⟨503, [("content-type", "text/plain")], utf8Encode "busy"⟩,
          .error "iframe-timeout", [], true⟩
        "https://konto.flatex.at/downloadData/1/slow.pdf" false =
      .ok (⟨false, "503 warm-up failed: iframe-timeout", true⟩, ⟨1, 1, none⟩) :=
  ⟨(((C5_warmup_retry_flow _ _ _ (by decide) rfl (by decide)).1 _ rfl rfl (by decide) (by decide)
        rfl).trans
      (by rfl)),
    ((C5_warmup_retry_flow _ _ _ (by decide) rfl (by decide)).2.1 "iframe-timeout" rfl).trans
      (by rfl)⟩

theorem save_pdf_no_uncaught (env : DownloadEnv) (link : String) (skip : Bool)
    (hwr : env.writeOk = true) : ∃ r, save_pdf_from_link env link skip = .ok r := by
  unfold save_pdf_from_link finishSave
  repeat' split
  all_goals try simp_all
  all_goals repeat' split
  all_goals exact ⟨_, _, rfl⟩

theorem rowLoopGo_no_uncaught (skip : Bool) (retries : Nat) (env : Nat → AttemptEnv)
    (hwr : ∀ a, (env a).dl.writeOk = true) :
    ∀ remaining attempt st, ∃ st2, rowLoopGo skip retries env remaining attempt st = .ok st2 := by
  intro remaining
  induction remaining with
  | zero => exact fun attempt st => ⟨st, rfl⟩
  | succ n ih =>
    intro attempt st
    cases hres : (env attempt).resolve with
    | error e => simpa only [rowLoopGo, hres] using ih (attempt + 1) _
    | ok link =>
      obtain ⟨r, hr⟩ := save_pdf_no_uncaught (env attempt).dl link skip (hwr attempt)
      obtain ⟨st3, h3⟩ :=
        ih (attempt + 1) { st with link := link, lastLink := link, rowMsg := r.1.message }
      simp only [rowLoopGo, hres, hr]
      by_cases hs : r.1.success = true <;>
        by_cases hc : (r.1.retriable && decide (attempt < retries)) = true <;>
          simp [hs, hc, h3]

theorem processRow_no_uncaught (skip : Bool) (retries : Nat) (env : Nat → AttemptEnv)
    (hwr : ∀ a, (env a).dl.writeOk = true) : ∃ b, processRow skip retries env = .ok b := by
  obtain ⟨st, hst⟩ := rowLoopGo_no_uncaught skip retries env hwr retries 1 initRowState
  unfold processRow
  rw [hst]
  exact ⟨_, rfl⟩

theorem processRows_complete (skip : Bool) (retries : Nat) :
    ∀ rows : List (Nat → AttemptEnv), (∀ e ∈ rows, ∀ a, (e a).dl.writeOk = true) →
      ∃ s f, processRows skip retries rows = .ok (s, f) ∧ s + f = rows.length := by
  intro rows
  induction rows with
  | nil => exact fun _ => ⟨0, 0, rfl, rfl⟩
  | cons e rest ih =>
    intro hwr
    obtain ⟨b, hb⟩ := processRow_no_uncaught skip retries e (hwr e (by simp))
    obtain ⟨s, f, hsf, hlen⟩ := ih fun e2 he2 => hwr e2 (by simp [he2])
    cases b with
    | true =>
      exact ⟨s + 1, f, by simp [processRows, hb, hsf, Bind.bind, Except.bind],
        by simp only [List.length_cons]; omega⟩
    | false =>
      exact ⟨s, f + 1, by simp [processRows, hb, hsf, Bind.bind, Except.bind],
        by simp only [List.length_cons]; omega⟩

/-- C2 counterexample: a run that reaches row processing and completes with
one failed row (its link never resolves) still gets exit code 0, not the
claimed 1: `main` returns 0 unconditionally once row processing completes. -/
theorem C2_counterexample :
    mainRun 1 "t" "w" ⟨1, 0, 1, false⟩
        (fun _ _ => ⟨.error "boom", ⟨.error "x", .error "x", .ok (), [], true⟩⟩) =
      .ok (.done 0 1) ∧
    exitCode (.done 0 1) = 0 ∧ exitCode (.done 0 1) ≠ 1 := by
  refine ⟨by rfl, rfl, by decide⟩

theorem except_map_ok {α β ε : Type} (f : α → β) (x : Except ε α) (b : β)
    (h : Except.map f x = .ok b) : ∃ a, x = .ok a ∧ f a = b := by
  cases x with
  | error e => simp [Except.map] at h
  | ok a => exact ⟨a, rfl, by simpa [Except.map] using h⟩

/-- C2 (amended): when a run report is produced (the run reaches row
processing and completes), the exit code is 0 regardless of the number of
failed rows; exit code 1 arises only from the fatal pre-processing checks
(no rows, missing credentials, empty row range), which happen before any row
is processed. -/
theorem C2_exit_code_semantics (rowCount : Int) (tok win : String) (args : RunArgs)
    (rows : Nat → Nat → AttemptEnv) :
    (∀ s f, mainRun rowCount tok win args rows = .ok (.done s f) → exitCode (.done s f) = 0) ∧
    (mainRun rowCount tok win args rows = .ok .fatal →
      exitCode .fatal = 1 ∧
        (rowCount ≤ 0 ∨ tok = "" ∨ win = "" ∨
          (if args.endRow ≤ 0 then rowCount else min args.endRow rowCount) <
            max 1 args.startRow)) := by
  constructor
  · intro s f _
    rfl
  · intro h
    refine ⟨rfl, ?_⟩
    by_cases h1 : rowCount ≤ 0
    · exact Or.inl h1
    · by_cases h2 : tok = ""
      · exact Or.inr (Or.inl h2)
      · by_cases h3 : win = ""
        · exact Or.inr (Or.inr (Or.inl h3))
        · refine Or.inr (Or.inr (Or.inr ?_))
          by_cases h4 :
            (if args.endRow ≤ 0 then rowCount else min args.endRow rowCount) <
              max 1 args.startRow
          · exact h4
          · exfalso
            unfold mainRun at h
            rw [if_neg h1] at h
            have hb : (decide (tok = "") || decide (win = "")) = false := by simp [h2, h3]
            rw [hb] at h
            simp only [Bool.false_eq_true, if_false] at h
            rw [if_neg h4] at h
            obtain ⟨a, _, hfa⟩ := except_map_ok _ _ _ h
            exact MainResult.noConfusion hfa

/-- C2 witness: the amended theorem applied to the counterexample run (one
row, resolution always failing) and to a one-row run that succeeds. -/
theorem C2_witness :
    exitCode (.done 0 1) = 0 ∧ exitCode (.done 1 0) = 0 :=
  ⟨(C2_exit_code_semantics 1 "t" "w" ⟨1, 0, 1, false⟩
        (fun _ _ => ⟨.error "boom", ⟨.error "x", .error "x", .ok (), [], true⟩⟩)).1 0 1 (by rfl),
    (C2_exit_code_semantics 1 "t" "w" ⟨1, 0, 1, false⟩
        (fun _ _ =>
          ⟨.ok "https://konto.flatex.at/downloadData/1/foo.pdf",
            ⟨.ok ⟨200, [("content-type", "application/pdf")], [0x25, 0x50, 0x44, 0x46]⟩,
              .error "x", .ok (), [], true⟩⟩)).1 1 0 (by rfl)⟩

/-- C7 counterexample: in a two-row run, an exception raised while writing
the first row's file (the `target.write_bytes` call inside the download, an
`OSError`) propagates out of the row loop and aborts the whole run — the
second row is never processed and no report is produced — refuting "no
exception propagates out of a row's processing". -/
theorem C7_counterexample :
    processRows false 1
        [fun _ =>
          ⟨.ok "https://konto.flatex.at/downloadData/1/foo.pdf",
            ⟨.ok ⟨200, [("content-type", "application/pdf")], [0x25, 0x50, 0x44, 0x46]⟩,
              .error "x", .ok (), [], false⟩⟩,
          fun _ =>
          ⟨.ok "https://konto.flatex.at/downloadData/2/bar.pdf",
            ⟨.ok ⟨200, [("content-type", "application/pdf")], [0x25, 0x50, 0x44, 0x46]⟩,
              .error "x", .ok (), [], true⟩⟩] =
      .error "oserror while writing file" := by
  rfl

/-- C7 (amended): every exception raised while resolving a row's link or
during the fetch/warm-up network phase is handled inside the per-row retry
loop; provided the file writes themselves do not raise, no exception
propagates out of a row's processing, every row is processed, and each row
lands in exactly one of the success/failed counts. -/
theorem C7_rows_never_abort (skip : Bool) (retries : Nat) (rows : List (Nat → AttemptEnv))
    (hwr : ∀ e ∈ rows, ∀ a, (e a).dl.writeOk = true) :
    ∃ s f, processRows skip retries rows = .ok (s, f) ∧ s + f = rows.length := by
  exact processRows_complete skip retries rows hwr

/-- C7 witness: a two-row run (first row's host is blocked, a non-retriable
failure; second row succeeds) completes with both rows counted. -/
theorem C7_witness :
    processRows false 2
        [fun _ =>
          ⟨.ok "https://evil.example/malware.pdf",
            ⟨.error "x", .error "x", .ok (), [], true⟩⟩,
          fun _ =>
          ⟨.ok "https://konto.flatex.at/downloadData/1/foo.pdf",
            ⟨.ok ⟨200, [("content-type", "application/pdf")], [0x25, 0x50, 0x44, 0x46]⟩,
              .error "x", .ok (), [], true⟩⟩] =
      .ok (1, 1) := by
  have h :=
    C7_rows_never_abort false 2
      [fun _ =>
        ⟨.ok "https://evil.example/malware.pdf",
          ⟨.error "x", .error "x", .ok (), [], true⟩⟩,
        fun _ =>
        ⟨.ok "https://konto.flatex.at/downloadData/1/foo.pdf",
          ⟨.ok ⟨200, [("content-type", "application/pdf")], [0x25, 0x50, 0x44, 0x46]⟩,
            .error "x", .ok (), [], true⟩⟩]
      (by
        intro e he a
        simp only [List.mem_cons, List.not_mem_nil, or_false] at he
        rcases he with rfl | rfl <;> rfl)
  exact (by rfl)

theorem hexRev_length (w n : Nat) : (hexRev w n).length = w := by
  induction w generalizing n with
  | zero => rfl
  | succ k ih => simp [hexRev, ih]

theorem digitChar_mod16_hex (m : Nat) : Nat.digitChar (m % 16) ∈ "0123456789abcdef".data := by
  have hk : m % 16 < 16 := Nat.mod_lt _ (by norm_num)
  generalize hg : m % 16 = k at hk
  interval_cases k <;> decide

theorem hexRev_mem_hex (w n : Nat) : ∀ c ∈ hexRev w n, c ∈ "0123456789abcdef".data := by
  induction w generalizing n with
  | zero => intro c hc; cases hc
  | succ k ih =>
    intro c hc
    rcases List.mem_cons.mp hc with rfl | hc2
    · exact digitChar_mod16_hex n
    · exact ih _ c hc2

theorem hexWord32_length (n : Nat) : (hexWord32 n).length = 8 := by
  simp [hexWord32, hexRev_length]

theorem hexWord32_mem_hex (n : Nat) : ∀ c ∈ hexWord32 n, c ∈ "0123456789abcdef".data := by
  intro c hc
  exact hexRev_mem_hex 8 n c (List.mem_reverse.mp hc)

theorem sha1Hex_length (msg : List Nat) : (sha1Hex msg).data.length = 40 := by
  simp [sha1Hex, hexWord32_length]

theorem sha1Hex_mem_hex (msg : List Nat) : ∀ c ∈ (sha1Hex msg).data, c ∈ "0123456789abcdef".data := by
  intro c hc
  simp only [sha1Hex, List.mem_append] at hc
  rcases hc with ((((h | h) | h) | h) | h) <;> exact hexWord32_mem_hex _ c h

/-- C9: `build_stable_stem` is deterministic (it is a pure function of the
URL); for every URL whose query has `documentId=abc-123` and no value for
the earlier-priority key `id`, the stem is `flatex_abc-123` (the sanitized
value, with a trailing `.pdf` stripped before prefixing — vacuous here); and
for every URL with none of the recognized id parameters, the stem is
`flatex_` followed by the first 12 characters of the 40-lowercase-hex-digit
SHA-1 digest of the UTF-8 encoded URL — 12 hex characters. -/
theorem C9_build_stable_stem_spec :
    (∀ url : String, build_stable_stem url = build_stable_stem url) ∧
    (∀ url : String,
      qsGet (qsPairs (pyUrlparse url "").query.data) "id" = [] →
      (∃ vs, qsGet (qsPairs (pyUrlparse url "").query.data) "documentId" = "abc-123" :: vs) →
      build_stable_stem url = "flatex_abc-123") ∧
    (∀ url : String,
      (∀ k ∈ idKeys, qsGet (qsPairs (pyUrlparse url "").query.data) k = []) →
      build_stable_stem url =
          "flatex_" ++ String.mk ((sha1Hex (utf8Encode url)).data.take 12) ∧
        ((sha1Hex (utf8Encode url)).data.take 12).length = 12 ∧
        ∀ c ∈ (sha1Hex (utf8Encode url)).data.take 12, c ∈ "0123456789abcdef".data) := by
  refine ⟨fun url => rfl, fun url hid hdoc => ?_, fun url hall => ?_⟩
  · obtain ⟨vs, hvs⟩ := hdoc
    simp only [build_stable_stem, idKeys, firstKeyVal, hid, hvs]
    rfl
  · have h1 := hall "id" (by simp [idKeys])
    have h2 := hall "documentId" (by simp [idKeys])
    have h3 := hall "docId" (by simp [idKeys])
    have h4 := hall "mailingId" (by simp [idKeys])
    have h5 := hall "uuid" (by simp [idKeys])
    refine ⟨?_, ?_, ?_⟩
    · simp only [build_stable_stem, idKeys, firstKeyVal, h1, h2, h3, h4, h5]
    · rw [List.length_take, sha1Hex_length]
      rfl
    · intro c hc
      exact sha1Hex_mem_hex _ c (List.mem_of_mem_take hc)

set_option maxRecDepth 10000 in
/-- C9 witness: the documentId URL of the repository's own test, and a
URL with no recognized id parameter (whose digest-based stem is also checked
against the concrete SHA-1 value). -/
theorem C9_witness :
    build_stable_stem "https://konto.flatex.at/x?documentId=abc-123" = "flatex_abc-123" ∧
    build_stable_stem "https://konto.flatex.at/foo" =
        "flatex_" ++
          String.mk ((sha1Hex (utf8Encode "https://konto.flatex.at/foo")).data.take 12) ∧
    build_stable_stem "https://konto.flatex.at/foo" = "flatex_e012113d6b69" :=
  ⟨C9_build_stable_stem_spec.2.1 _ (by rfl) ⟨[], by rfl⟩,
    (C9_build_stable_stem_spec.2.2 _ (by decide)).1, by rfl⟩

theorem natDigitsRev_nil (f m : Nat) (hm : m ≤ f) (h : natDigitsRev f m = []) : m = 0 := by
  cases f with
  | zero => omega
  | succ k =>
    cases m with
    | zero => rfl
    | succ l => simp [natDigitsRev] at h

theorem digitChar_inj_lt (a b : Nat) (ha : a < 10) (hb : b < 10)
    (h : Nat.digitChar a = Nat.digitChar b) : a = b := by
  interval_cases a <;> interval_cases b <;> revert h <;> decide

theorem natDigitsRev_inj : ∀ f1 n f2 m : Nat, n ≤ f1 → m ≤ f2 →
    natDigitsRev f1 n = natDigitsRev f2 m → n = m := by
  intro f1
  induction f1 with
  | zero =>
    intro n f2 m hn hm h
    have hn0 : n = 0 := by omega
    subst hn0
    have h2 : natDigitsRev f2 m = [] := h.symm
    rw [natDigitsRev_nil f2 m hm h2]
  | succ k ih =>
    intro n f2 m hn hm h
    cases n with
    | zero =>
      have h0 : natDigitsRev (k + 1) 0 = [] := rfl
      rw [h0] at h
      rw [natDigitsRev_nil f2 m hm h.symm]
    | succ l =>
      cases f2 with
      | zero =>
        have hm0 : m = 0 := by omega
        subst hm0
        simp [natDigitsRev] at h
      | succ j =>
        cases m with
        | zero => simp [natDigitsRev] at h
        | succ p =>
          simp only [natDigitsRev, List.cons.injEq] at h
          obtain ⟨hhead, htail⟩ := h
          have hmod : (l + 1) % 10 = (p + 1) % 10 :=
            digitChar_inj_lt _ _ (Nat.mod_lt _ (by norm_num)) (Nat.mod_lt _ (by norm_num)) hhead
          have hdiv : (l + 1) / 10 = (p + 1) / 10 :=
            ih ((l + 1) / 10) j ((p + 1) / 10) (by omega) (by omega) htail
          omega

theorem pyStrNat_data_inj (i j : Nat) (hi : 1 ≤ i) (hj : 1 ≤ j)
    (h : (pyStrNat i).data = (pyStrNat j).data) : i = j := by
  unfold pyStrNat at h
  rw [if_neg (by omega), if_neg (by omega)] at h
  have h2 : (natDigitsRev i i).reverse = (natDigitsRev j j).reverse := h
  exact natDigitsRev_inj i i j j le_rfl le_rfl (List.reverse_injective h2)

theorem altCandidate_inj (stem sfx : String) (i j : Nat) (hi : 1 ≤ i) (hj : 1 ≤ j)
    (h : altCandidate stem sfx i = altCandidate stem sfx j) : i = j := by
  unfold altCandidate at h
  have hd := congrArg String.data h
  simp only [String.data_append, List.append_assoc] at hd
  have h1 := List.append_cancel_left hd
  have h2 := List.append_cancel_left h1
  exact pyStrNat_data_inj i j hi hj (List.append_cancel_right h2)

theorem exists_free_candidate (ex : List String) (stem sfx : String) (i : Nat) (hi : 1 ≤ i) :
    ∃ j, i ≤ j ∧ j < i + (ex.length + 1) ∧ altCandidate stem sfx j ∉ ex := by
  by_contra hcon
  push_neg at hcon
  have hnd : ((List.range' i (ex.length + 1)).map (altCandidate stem sfx)).Nodup := by
    refine List.Nodup.map_on ?_ (List.nodup_range' _ _)
    intro x hx y hy hxy
    rw [List.mem_range'_1] at hx hy
    exact altCandidate_inj stem sfx x y (by omega) (by omega) hxy
  have hsub : ∀ c ∈ (List.range' i (ex.length + 1)).map (altCandidate stem sfx), c ∈ ex := by
    intro c hc
    obtain ⟨j, hj, rfl⟩ := List.mem_map.mp hc
    rw [List.mem_range'_1] at hj
    exact hcon j hj.1 hj.2
  have hlen : ((List.range' i (ex.length + 1)).map (altCandidate stem sfx)).length =
      ex.length + 1 := by simp
  have hcard := List.toFinset_card_of_nodup hnd
  have hss : ((List.range' i (ex.length + 1)).map (altCandidate stem sfx)).toFinset ⊆
      ex.toFinset :=
    fun c hc => List.mem_toFinset.mpr (hsub c (List.mem_toFinset.mp hc))
  have hle := Finset.card_le_card hss
  rw [hcard, hlen] at hle
  have := ex.toFinset_card_le
  omega

theorem findFreeGo_spec (ex : List String) (stem sfx : String) :
    ∀ fuel i, (∃ j, i ≤ j ∧ j < i + fuel ∧ altCandidate stem sfx j ∉ ex) →
      ∃ j, findFreeGo ex stem sfx fuel i = altCandidate stem sfx j ∧ i ≤ j ∧
        altCandidate stem sfx j ∉ ex ∧ ∀ k, i ≤ k → k < j → altCandidate stem sfx k ∈ ex := by
  intro fuel
  induction fuel with
  | zero =>
    rintro i ⟨j, h1, h2, _⟩
    omega
  | succ f ih =>
    rintro i ⟨j, h1, h2, hfree⟩
    by_cases hb : ex.contains (altCandidate stem sfx i) = true
    · have hmem : altCandidate stem sfx i ∈ ex := List.elem_iff.mp hb
      have hji : i ≠ j := fun he => hfree (he ▸ hmem)
      obtain ⟨j2, hres, hij2, hfree2, hblk2⟩ := ih (i + 1) ⟨j, by omega, by omega, hfree⟩
      refine ⟨j2, ?_, by omega, hfree2, ?_⟩
      · rw [findFreeGo, if_pos hb]
        exact hres
      · intro k hk1 hk2
        rcases Nat.eq_or_lt_of_le hk1 with rfl | hk3
        · exact hmem
        · exact hblk2 k hk3 hk2
    · refine ⟨i, ?_, le_rfl, fun hmem => hb (List.elem_iff.mpr hmem),
        fun k hk1 hk2 => by omega⟩
      rw [findFreeGo, if_neg hb]

/-- C6: in a successful non-skip-existing download whose resolved target
filename `name` (here with stem/suffix abbreviated through the equation
hypotheses) already exists in the output directory, `save_pdf_from_link`
writes the body to the first free sibling `name` with `_i` (i = 2, 3, ...)
inserted before the extension: the written name is the candidate of the least
free index `i ≥ 2`, it is not the name of any existing file (so the
pre-existing file, like every other existing file, is never overwritten and
keeps its contents), and every candidate with a smaller index ≥ 2 is an
existing file. -/
theorem C6_collision_first_free_suffix (env : DownloadEnv) (link : String) (r : PwResponse)
    (name stem sfx : String)
    (hn : filename_from_headers_or_url r.headers link (build_stable_stem link) = name)
    (hstem : pathStem name = stem) (hsfx : pathSuffix name = sfx)
    (hallow : is_allowed_download_url link = true)
    (hfetch : env.fetch1 = .ok r) (hst : r.status = 200)
    (hct : hasSubstr (pyLower (headersGet r.headers "content-type")).data "pdf".data = true)
    (hwr : env.writeOk = true)
    (hname : name ∈ env.existing) :
    ∃ i, 2 ≤ i ∧
      save_pdf_from_link env link false =
        .ok
          (⟨true, "saved " ++ altCandidate stem sfx i, false⟩,
            ⟨1, 0, some (altCandidate stem sfx i, r.body)⟩) ∧
      altCandidate stem sfx i ∉ env.existing ∧
      ∀ k, 2 ≤ k → k < i → altCandidate stem sfx k ∈ env.existing := by
  obtain ⟨j, hres, hij, hfree, hblk⟩ :=
    findFreeGo_spec env.existing stem sfx (env.existing.length + 1) 2
      (exists_free_candidate env.existing stem sfx 2 (by norm_num))
  have h503 : ¬ r.status = 503 := by omega
  have hok : r.ok = true := by
    simp only [PwResponse.ok, hst]
    decide
  have hcontains : env.existing.contains name = true := List.elem_iff.mpr hname
  refine ⟨j, hij, ?_, hfree, hblk⟩
  simp only [save_pdf_from_link, finishSave, hallow, hfetch, h503, hok, hct, hwr, hn,
    resolveCollision, hcontains, hstem, hsfx, hres]
  simp [hname]

/-- C6 witness: `foo.pdf` and `foo_2.pdf` already exist, so the download is
written to `foo_3.pdf` and no existing file is touched. -/
theorem C6_witness :
    save_pdf_from_link
        ⟨.ok
            ⟨200,
              [("content-type", "application/pdf"),
                ("content-disposition", "attachment; filename=\"foo.pdf\"")],
              [0x25, 0x50, 0x44, 0x46]⟩,
          .error "x", .ok (), ["foo.pdf", "foo_2.pdf"], true⟩
        "https://konto.flatex.at/downloadData/1/foo.pdf" false =
      .ok
        (⟨true, "saved foo_3.pdf", false⟩,
          ⟨1, 0, some ("foo_3.pdf", [0x25, 0x50, 0x44, 0x46])⟩) ∧
    ("foo_3.pdf" ∈ ["foo.pdf", "foo_2.pdf"]) = False := by
  have h :=
    C6_collision_first_free_suffix
      ⟨.ok
          ⟨200,
            [("content-type", "application/pdf"),
              ("content-disposition", "attachment; filename=\"foo.pdf\"")],
            [0x25, 0x50, 0x44, 0x46]⟩,
        .error "x", .ok (), ["foo.pdf", "foo_2.pdf"], true⟩
      "https://konto.flatex.at/downloadData/1/foo.pdf"
      ⟨200,
        [("content-type", "application/pdf"),
          ("content-disposition", "attachment; filename=\"foo.pdf\"")],
        [0x25, 0x50, 0x44, 0x46]⟩
      "foo.pdf" "foo" ".pdf" (by rfl) (by rfl) (by rfl) (by decide) rfl rfl (by decide) rfl
      (by decide)
  exact ⟨by rfl, by simp⟩

/-- C10 counterexample: with no Content-Disposition header and the query
`filename=%20`, the post-fetch resolver takes the decoded value " "
unconditionally (no strip/emptiness check), producing "pdf.pdf", while the
optimistic pre-fetch resolver strips it, finds it empty, skips the key, and
falls back to the path tail "x", producing "x.pdf" — the two names differ. -/
theorem C10_counterexample :
    filename_from_headers_or_url [] "https://konto.flatex.at/x?filename=%20" "fb" = "pdf.pdf" ∧
    filename_from_url "https://konto.flatex.at/x?filename=%20" "fb" = "x.pdf" ∧
    filename_from_headers_or_url [] "https://konto.flatex.at/x?filename=%20" "fb" ≠
      filename_from_url "https://konto.flatex.at/x?filename=%20" "fb" := by
  refine ⟨by rfl, by rfl, by decide⟩

theorem qsLoop_agree (qs : List (String × String)) :
    ∀ keys : List String,
      (∀ v, firstKeyVal qs keys = some v →
        pyStrip (unquote v) = unquote v ∧ unquote v ≠ "") →
      qsLoopHdr qs keys = qsLoopUrl qs keys := by
  intro keys
  induction keys with
  | nil => intro _; rfl
  | cons k ks ih =>
    intro hgood
    cases hq : qsGet qs k with
    | nil =>
      have hrec := ih fun v hv => hgood v (by simpa only [firstKeyVal, hq] using hv)
      simp only [qsLoopHdr, qsLoopUrl, hq, hrec]
    | cons v vs =>
      have hv : firstKeyVal qs (k :: ks) = some v := by simp only [firstKeyVal, hq]
      obtain ⟨hstrip, hne⟩ := hgood v hv
      simp only [qsLoopHdr, qsLoopUrl, hq, hstrip, if_neg hne]

/-- C10 (amended): when the response carries no Content-Disposition filename
directive, `filename_from_headers_or_url` returns the same name as
`filename_from_url` provided that the first recognized query parameter
present (if any) has a percent-decoded value that is non-empty and free of
leading/trailing whitespace — in particular always when no recognized query
parameter is present. -/
theorem C10_filename_resolvers_agree (headers : List (String × String)) (url stem : String)
    (hcd : searchFilenameRE (headersGet headers "content-disposition").data = none)
    (hgood : ∀ v, firstKeyVal (qsPairs (pyUrlparse url "").query.data) fnKeys = some v →
      pyStrip (unquote v) = unquote v ∧ unquote v ≠ "") :
    filename_from_headers_or_url headers url stem = filename_from_url url stem := by
  have hloop := qsLoop_agree (qsPairs (pyUrlparse url "").query.data) fnKeys hgood
  simp only [filename_from_headers_or_url, filename_from_url, hcd, hloop]

/-- C10 witness: the two resolvers agree on the repository test's URL (good
`filename` parameter) and on a URL with no recognized query parameter, both
with no Content-Disposition header. -/
theorem C10_witness :
    filename_from_headers_or_url [] "https://konto.flatex.at/download?filename=My%20File%20(1).pdf"
        "fb" =
      filename_from_url "https://konto.flatex.at/download?filename=My%20File%20(1).pdf" "fb" ∧
    filename_from_headers_or_url [] "https://konto.flatex.at/downloadData/1/ok.pdf" "fb" =
      filename_from_url "https://konto.flatex.at/downloadData/1/ok.pdf" "fb" :=
  ⟨C10_filename_resolvers_agree [] _ "fb" (by rfl)
      (by
        intro v hv
        have hv2 : some "My File (1).pdf" = some v :=
          (show firstKeyVal
              (qsPairs
                (pyUrlparse "https://konto.flatex.at/download?filename=My%20File%20(1).pdf"
                    "").query.data)
              fnKeys = some "My File (1).pdf" from rfl).symm.trans hv
        cases hv2
        exact ⟨by rfl, by decide⟩),
    C10_filename_resolvers_agree [] _ "fb" (by rfl)
      (by
        intro v hv
        exact Option.noConfusion
          ((show firstKeyVal
              (qsPairs
                (pyUrlparse "https://konto.flatex.at/downloadData/1/ok.pdf" "").query.data)
              fnKeys = none from rfl).symm.trans hv))⟩

theorem takeWhile_dropWhile_split (p : Char → Bool) (u : List Char) (x : Char) (r2 : List Char)
    (hu : ∀ c ∈ u, p c = true) (hx : p x = false) :
    (u ++ x :: r2).takeWhile p = u ∧ (u ++ x :: r2).dropWhile p = x :: r2 := by
  induction u with
  | nil => simp [List.takeWhile_cons, List.dropWhile_cons, hx]
  | cons c cs ih =>
    have hc : p c = true := hu c (by simp)
    have hrest := ih fun d hd => hu d (by simp [hd])
    simp [List.takeWhile_cons, List.dropWhile_cons, hc, hrest.1, hrest.2]

theorem dropWhile_head_not (p : Char → Bool) (r : List Char) (d : Char) (rest : List Char)
    (h : r.dropWhile p = d :: rest) : p d = false := by
  induction r with
  | nil => simp at h
  | cons c cs ih =>
    rw [List.dropWhile_cons] at h
    by_cases hc : p c = true
    · rw [if_pos hc] at h
      exact ih h
    · rw [if_neg hc] at h
      cases h
      simpa using hc

theorem matchScriptAt_iff (lit cs u : List Char) :
    matchScriptAt lit cs = some u ↔
      (∃ post, cs = lit ++ u ++ '"' :: ',' :: post) ∧ u ≠ [] ∧ '"' ∉ u := by
  constructor
  · intro h
    unfold matchScriptAt at h
    split at h
    · rename_i hpre
      obtain ⟨r, hr⟩ := List.isPrefixOf_iff_prefix.mp hpre
      have hdrop : cs.drop lit.length = r := by
        rw [← hr]
        exact List.drop_left _ _
      rw [hdrop] at h
      dsimp only at h
      split at h
      · exact absurd h (by simp)
      · rename_i c cap htake
        split at h
        · rename_i post hdw
          simp only [Option.some.injEq] at h
          subst h
          have hsplit : r.takeWhile (fun x => decide (x ≠ '"')) ++
              r.dropWhile (fun x => decide (x ≠ '"')) = r :=
            List.takeWhile_append_dropWhile _ _
          rw [htake, hdw] at hsplit
          refine ⟨⟨post, ?_⟩, by simp, ?_⟩
          · rw [← hr, ← hsplit, List.append_assoc]
          · intro hqmem
            have := List.mem_takeWhile_imp (htake ▸ hqmem)
            simp at this
        · exact absurd h (by simp)
    · exact absurd h (by simp)
  · rintro ⟨⟨post, hdec⟩, hne, hq⟩
    have hall : ∀ c ∈ u, (fun x => decide (x ≠ '"')) c = true := by
      intro c hc
      simp
      exact fun he => hq (he ▸ hc)
    have hsplit := takeWhile_dropWhile_split (fun x => decide (x ≠ '"')) u '"'
      (',' :: post) hall (by simp)
    have hpre : lit.isPrefixOf cs = true := by
      rw [List.isPrefixOf_iff_prefix, hdec]
      exact ⟨u ++ '"' :: ',' :: post, (List.append_assoc lit u _).symm⟩
    have hdrop : cs.drop lit.length = u ++ '"' :: ',' :: post := by
      rw [hdec, List.append_assoc]
      exact List.drop_left _ _
    unfold matchScriptAt
    rw [if_pos hpre, hdrop]
    dsimp only
    rw [hsplit.1, hsplit.2]
    cases u with
    | nil => exact absurd rfl hne
    | cons c cap => rfl

theorem searchScript_of_cap (lit : List Char) :
    ∀ s, (∃ u, IsScriptCap lit s u) → ∃ u2, searchScript lit s = some u2 := by
  intro s
  induction s with
  | nil =>
    rintro ⟨u, pre, post, heq, hne, _⟩
    exfalso
    have hlen := congrArg List.length heq
    cases u with
    | nil => exact hne rfl
    | cons a b =>
      simp at hlen
      omega
  | cons c t ih =>
    rintro ⟨u, pre, post, heq, hne, hq⟩
    cases hm : matchScriptAt lit (c :: t) with
    | some m => exact ⟨m, by simp [searchScript, hm]⟩
    | none =>
      cases pre with
      | nil =>
        exfalso
        have hsome : matchScriptAt lit (c :: t) = some u :=
          (matchScriptAt_iff lit (c :: t) u).mpr ⟨⟨post, by simpa using heq⟩, hne, hq⟩
        rw [hm] at hsome
        exact Option.noConfusion hsome
      | cons p ps =>
        have heq2 : t = ps ++ lit ++ u ++ '"' :: ',' :: post := by
          simp only [List.cons_append] at heq
          injection heq with h1 h2
        obtain ⟨u2, h2⟩ := ih ⟨u, ps, post, heq2, hne, hq⟩
        exact ⟨u2, by simp [searchScript, hm, h2]⟩

theorem searchScript_sound (lit : List Char) :
    ∀ s u, searchScript lit s = some u → IsLeftmostScriptCap lit s u := by
  intro s
  induction s with
  | nil =>
    intro u h
    exact absurd h (by simp [searchScript])
  | cons c t ih =>
    intro u h
    simp only [searchScript] at h
    cases hm : matchScriptAt lit (c :: t) with
    | some m =>
      rw [hm] at h
      dsimp only at h
      obtain rfl : u = m := by
        injection h with h2
        exact h2.symm
      obtain ⟨⟨post, hdec⟩, hne, hq⟩ := (matchScriptAt_iff lit (c :: t) _).mp hm
      exact ⟨[], post, by simpa using hdec, hne, hq, fun pre2 u2 post2 _ _ _ => by simp⟩
    | none =>
      rw [hm] at h
      dsimp only at h
      obtain ⟨pre, post, heq, hne, hq, hmin⟩ := ih u h
      refine ⟨c :: pre, post, ?_, hne, hq, ?_⟩
      · simp only [List.cons_append]
        exact congrArg (c :: ·) heq
      · intro pre2 u2 post2 heq2 hne2 hq2
        cases pre2 with
        | nil =>
          exfalso
          have hsome : matchScriptAt lit (c :: t) = some u2 :=
            (matchScriptAt_iff _ _ _).mpr ⟨⟨post2, by simpa using heq2⟩, hne2, hq2⟩
          rw [hm] at hsome
          exact Option.noConfusion hsome
        | cons p ps =>
          have heq3 : t = ps ++ lit ++ u2 ++ '"' :: ',' :: post2 := by
            simp only [List.cons_append] at heq2
            injection heq2 with h1 h2
          have := hmin ps u2 post2 heq3 hne2 hq2
          simp only [List.length_cons]
          omega

theorem leftmost_cap_is_cap (lit s u : List Char) (h : IsLeftmostScriptCap lit s u) :
    IsScriptCap lit s u := by
  obtain ⟨pre, post, h1, h2, h3, _⟩ := h
  exact ⟨pre, post, h1, h2, h3⟩

/-- C3: `extract_pdf_link_from_script` tries the `finished("<url>", ...)`
pattern, then `display("<url>", ...)`, the first (leftmost) match winning:
whenever the `finished` search succeeds, the result is its leftmost capture,
normalized (`\/` → `/` and `&` → `&` substitutions, then resolved
against the base URL by `urljoin`, which is what `normalize_command_url`
does); the `display` pattern is used exactly when `finished` matches
nowhere; some capture is returned whenever either pattern occurs in the
script; and a script containing neither pattern fails with the
command-invalid (`InvalidCommand`) error. -/
theorem C3_extract_pdf_link_spec (script base : String) :
    (∀ u, searchScript finishedLit script.data = some u →
      IsLeftmostScriptCap finishedLit script.data u ∧
        extract_pdf_link_from_script script base =
          .ok (normalize_command_url (String.mk u) base)) ∧
    (searchScript finishedLit script.data = none →
      ∀ u, searchScript displayLit script.data = some u →
        IsLeftmostScriptCap displayLit script.data u ∧
          extract_pdf_link_from_script script base =
            .ok (normalize_command_url (String.mk u) base)) ∧
    ((∃ u, IsScriptCap finishedLit script.data u) ∨
        (∃ u, IsScriptCap displayLit script.data u) →
      ∃ u, extract_pdf_link_from_script script base =
        .ok (normalize_command_url (String.mk u) base)) ∧
    (¬ (∃ u, IsScriptCap finishedLit script.data u) →
      ¬ (∃ u, IsScriptCap displayLit script.data u) →
      extract_pdf_link_from_script script base =
        .error "command-invalid: no PDF link pattern matched") := by
  refine ⟨fun u hu => ⟨searchScript_sound _ _ _ hu, ?_⟩,
    fun hn u hu => ⟨searchScript_sound _ _ _ hu, ?_⟩, ?_, fun h1 h2 => ?_⟩
  · simp [extract_pdf_link_from_script, hu]
  · simp [extract_pdf_link_from_script, hn, hu]
  · rintro (⟨u, hcap⟩ | ⟨u, hcap⟩)
    · obtain ⟨u2, h2⟩ := searchScript_of_cap finishedLit script.data ⟨u, hcap⟩
      exact ⟨u2, by simp [extract_pdf_link_from_script, h2]⟩
    · cases hf : searchScript finishedLit script.data with
      | some m => exact ⟨m, by simp [extract_pdf_link_from_script, hf]⟩
      | none =>
        obtain ⟨u2, h2⟩ := searchScript_of_cap displayLit script.data ⟨u, hcap⟩
        exact ⟨u2, by simp [extract_pdf_link_from_script, hf, h2]⟩
  · have hf : searchScript finishedLit script.data = none := by
      cases hf2 : searchScript finishedLit script.data with
      | none => rfl
      | some m =>
        exact absurd ⟨m, leftmost_cap_is_cap _ _ _ (searchScript_sound _ _ _ hf2)⟩ h1
    have hd : searchScript displayLit script.data = none := by
      cases hd2 : searchScript displayLit script.data with
      | none => rfl
      | some m =>
        exact absurd ⟨m, leftmost_cap_is_cap _ _ _ (searchScript_sound _ _ _ hd2)⟩ h2
    simp [extract_pdf_link_from_script, hf, hd]

/-- C3 witness: the spec's end-to-end example (a `finished` script resolved
against the archive base URL) and a script matching neither pattern. -/
theorem C3_witness :
    extract_pdf_link_from_script "foo finished(\"/downloadData/123/file.pdf\", \"x\") bar"
        "https://konto.flatex.at/archive" =
      .ok "https://konto.flatex.at/downloadData/123/file.pdf" ∧
    extract_pdf_link_from_script "nope" "https://konto.flatex.at/" =
      .error "command-invalid: no PDF link pattern matched" :=
  ⟨((C3_extract_pdf_link_spec "foo finished(\"/downloadData/123/file.pdf\", \"x\") bar"
          "https://konto.flatex.at/archive").1
        "/downloadData/123/file.pdf".data (by rfl)).2.trans
      (by rfl),
    (C3_extract_pdf_link_spec "nope" "https://konto.flatex.at/").2.2.2
      (by
        rintro ⟨u, hcap⟩
        obtain ⟨u2, h2⟩ := searchScript_of_cap finishedLit ("nope" : String).data ⟨u, hcap⟩
        exact Option.noConfusion
          ((show searchScript finishedLit ("nope" : String).data = none from rfl).symm.trans h2))
      (by
        rintro ⟨u, hcap⟩
        obtain ⟨u2, h2⟩ := searchScript_of_cap displayLit ("nope" : String).data ⟨u, hcap⟩
        exact Option.noConfusion
          ((show searchScript displayLit ("nope" : String).data = none from rfl).symm.trans h2))⟩

theorem ws_not_safe (c : Char) (h : wsChar c = true) : safeChar c = false := by
  simp only [wsChar, Bool.or_eq_true, decide_eq_true_eq] at h
  rcases h with ((((rfl | rfl) | rfl) | rfl) | rfl) | rfl <;> decide

theorem safe_not_ws (c : Char) (h : safeChar c = true) : wsChar c = false := by
  cases hw : wsChar c with
  | false => rfl
  | true => rw [ws_not_safe c hw] at h; exact absurd h (by simp)

theorem dropWhile_all_false (p : Char → Bool) (l : List Char) (h : ∀ c ∈ l, p c = false) :
    l.dropWhile p = l := by
  cases l with
  | nil => rfl
  | cons c t =>
    have hc := h c (by simp)
    rw [List.dropWhile_cons]
    simp [hc]

theorem rdropWhile_all_false (p : Char → Bool) (l : List Char) (h : ∀ c ∈ l, p c = false) :
    l.rdropWhile p = l := by
  rw [List.rdropWhile_eq_self_iff]
  intro hl
  simp [h _ (List.getLast_mem hl)]

theorem collapseGo_all_safe (b : Bool) (l : List Char) (h : ∀ c ∈ l, safeChar c = true) :
    collapseGo b l = l := by
  induction l generalizing b with
  | nil => rfl
  | cons c t ih =>
    have hc := h c (by simp)
    simp [collapseGo, hc, ih false fun d hd => h d (by simp [hd])]

theorem collapseGo_mem_safe (b : Bool) (l : List Char) :
    ∀ c ∈ collapseGo b l, safeChar c = true := by
  induction l generalizing b with
  | nil => intro c hc; cases hc
  | cons d t ih =>
    intro c hc
    by_cases hd : safeChar d = true
    · rw [show collapseGo b (d :: t) = d :: collapseGo false t from by simp [collapseGo, hd]] at hc
      rcases List.mem_cons.mp hc with rfl | h2
      · exact hd
      · exact ih false c h2
    · rw [show collapseGo b (d :: t) =
          if b then collapseGo true t else '_' :: collapseGo true t from by
            simp [collapseGo, hd]] at hc
      split at hc
      · exact ih true c hc
      · rcases List.mem_cons.mp hc with rfl | h2
        · decide
        · exact ih true c h2

theorem rdropWhile_append_rtakeWhile (p : Char → Bool) (l : List Char) :
    l.rdropWhile p ++ l.rtakeWhile p = l := by
  rw [List.rdropWhile, List.rtakeWhile, ← List.reverse_append, List.takeWhile_append_dropWhile,
    List.reverse_reverse]

theorem prefix_head? (l1 l2 : List Char) (h : l1 <+: l2) (hne : l1 ≠ []) :
    l2.head? = l1.head? := by
  obtain ⟨t, rfl⟩ := h
  cases l1 with
  | nil => exact absurd rfl hne
  | cons c r => rfl

theorem stripDUL_subset (l : List Char) : ∀ c ∈ stripDUL l, c ∈ l := by
  intro c hc
  have h1 := (List.rdropWhile_prefix duChar (l.dropWhile duChar)).subset hc
  exact (List.dropWhile_sublist duChar).subset h1

theorem stripDUL_head_not (l : List Char) (c : Char) (t : List Char)
    (h : stripDUL l = c :: t) : duChar c = false := by
  unfold stripDUL at h
  obtain ⟨s, hs⟩ := List.rdropWhile_prefix duChar (l.dropWhile duChar)
  rw [h] at hs
  exact dropWhile_head_not duChar l c (t ++ s) (by rw [← hs]; rfl)

theorem stripDUL_last_not (l : List Char) (h : stripDUL l ≠ []) :
    duChar ((stripDUL l).getLast h) = false := by
  have := List.rdropWhile_last_not duChar (l.dropWhile duChar) h
  simpa using this

theorem splitExtL_no_dot (l : List Char) (h : '.' ∉ l) : splitExtL l = (l, []) := by
  have hr : l.rtakeWhile (fun c => decide (c ≠ '.')) = l := by
    rw [List.rtakeWhile_eq_self_iff]
    intro x hx
    simp
    exact fun he => h (he ▸ hx)
  simp only [splitExtL]
  rw [hr, if_neg]
  rintro ⟨h1, h2⟩
  omega

theorem splitExtL_split (a b : List Char) (ha : a ≠ []) (hb : b ≠ []) (hnb : '.' ∉ b) :
    splitExtL (a ++ '.' :: b) = (a, '.' :: b) := by
  have hall : ∀ c ∈ b, (fun c => decide (c ≠ '.')) c = true := by
    intro c hc
    simp
    exact fun he => hnb (he ▸ hc)
  have hr : (a ++ '.' :: b).rtakeWhile (fun c => decide (c ≠ '.')) = b := by
    rw [List.rtakeWhile, List.reverse_append, List.reverse_cons, List.append_assoc]
    rw [show ['.'] ++ a.reverse = '.' :: a.reverse from rfl]
    rw [(takeWhile_dropWhile_split (fun c => decide (c ≠ '.')) b.reverse '.' a.reverse
        (fun c hc => hall c (List.mem_reverse.mp hc)) (by simp)).1]
    exact List.reverse_reverse b
  have hpos : 0 < a.length := List.length_pos.mpr ha
  have hbpos : 0 < b.length := List.length_pos.mpr hb
  have hlen : (a ++ '.' :: b).length = a.length + b.length + 1 := by
    simp
    omega
  simp only [splitExtL]
  rw [hr, if_pos ⟨hbpos, by omega⟩]
  have harith : (a ++ '.' :: b).length - b.length - 1 = a.length := by omega
  rw [harith]
  rw [List.take_left, List.drop_left]

theorem dot_decomposition (l : List Char) (hdot : '.' ∈ l) :
    ∃ a b, l = a ++ '.' :: b ∧ '.' ∉ b ∧
      b = l.rtakeWhile (fun c => decide (c ≠ '.')) ∧
      a ++ ['.'] = l.rdropWhile (fun c => decide (c ≠ '.')) := by
  have hne : l.rdropWhile (fun c => decide (c ≠ '.')) ≠ [] := by
    intro h0
    rw [List.rdropWhile_eq_nil_iff] at h0
    have := h0 '.' hdot
    simp at this
  have hlast : (l.rdropWhile (fun c => decide (c ≠ '.'))).getLast hne = '.' := by
    have := List.rdropWhile_last_not (fun c => decide (c ≠ '.'))
      l hne
    simpa using this
  have h1 := List.dropLast_concat_getLast hne
  rw [hlast] at h1
  refine ⟨(l.rdropWhile (fun c => decide (c ≠ '.'))).dropLast,
    l.rtakeWhile (fun c => decide (c ≠ '.')), ?_, ?_, rfl, h1⟩
  · calc l = l.rdropWhile (fun c => decide (c ≠ '.')) ++
          l.rtakeWhile (fun c => decide (c ≠ '.')) :=
          (rdropWhile_append_rtakeWhile _ l).symm
      _ = ((l.rdropWhile (fun c => decide (c ≠ '.'))).dropLast ++ ['.']) ++
          l.rtakeWhile (fun c => decide (c ≠ '.')) := by rw [h1]
      _ = (l.rdropWhile (fun c => decide (c ≠ '.'))).dropLast ++
          '.' :: l.rtakeWhile (fun c => decide (c ≠ '.')) := by
          rw [List.append_assoc]
          rfl
  · intro hmem
    have := List.mem_rtakeWhile_imp hmem
    simp at this

theorem stripDUL_head?_not (l : List Char) : ∀ c, (stripDUL l).head? = some c →
    duChar c = false := by
  intro c hc
  cases h : stripDUL l with
  | nil => rw [h] at hc; simp at hc
  | cons d t =>
    rw [h] at hc
    simp only [List.head?_cons, Option.some.injEq] at hc
    subst hc
    exact stripDUL_head_not l _ _ h

theorem stripDUL_getLast?_not (l : List Char) : ∀ c, (stripDUL l).getLast? = some c →
    duChar c = false := by
  intro c hc
  have hne : stripDUL l ≠ [] := by
    intro h0
    rw [h0] at hc
    simp at hc
  rw [List.getLast?_eq_getLast _ hne] at hc
  simp only [Option.some.injEq] at hc
  rw [← hc]
  exact stripDUL_last_not l hne

theorem rdropWhile_getLast?_not (p : Char → Bool) (l : List Char) :
    ∀ c, (l.rdropWhile p).getLast? = some c → p c = false := by
  intro c hc
  have hne : l.rdropWhile p ≠ [] := by
    intro h0
    rw [h0] at hc
    simp at hc
  rw [List.getLast?_eq_getLast _ hne] at hc
  simp only [Option.some.injEq] at hc
  rw [← hc]
  have := List.rdropWhile_last_not p l hne
  simpa using this

theorem rdropWhile_eq_self_of_getLast? (p : Char → Bool) (l : List Char)
    (h : ∀ c, l.getLast? = some c → p c = false) : l.rdropWhile p = l := by
  rw [List.rdropWhile_eq_self_iff]
  intro hl
  have := h (l.getLast hl) (List.getLast?_eq_getLast _ hl)
  simp [this]

theorem safe_head?_not (l : List Char) (hhead : ∀ c, l.head? = some c → duChar c = false) :
    l.dropWhile duChar = l := by
  cases l with
  | nil => rfl
  | cons c t =>
    have := hhead c rfl
    rw [List.dropWhile_cons]
    simp [this]

theorem sanitizeL_shape (x : List Char) :
    sanitizeL x = "document.pdf".data ∨
    ∃ stem tail, sanitizeL x = stem ++ '.' :: tail ∧ stem ≠ [] ∧ tail ≠ [] ∧
      (∀ c ∈ stem, safeChar c = true) ∧ (∀ c ∈ tail, safeChar c = true) ∧
      (∀ c, stem.head? = some c → duChar c = false) ∧
      (∀ c, stem.getLast? = some c → duChar c = false) ∧
      '.' ∉ tail ∧
      (∀ c, tail.getLast? = some c → duChar c = false) := by
  have Fsafe : ∀ c ∈ stripDUL (collapseUnsafe (pyStripL x)), safeChar c = true := fun c hc =>
    collapseGo_mem_safe false _ c (stripDUL_subset _ c hc)
  have Fhead := stripDUL_head?_not (collapseUnsafe (pyStripL x))
  have Flast := stripDUL_getLast?_not (collapseUnsafe (pyStripL x))
  have hbody : sanitizeL x =
      (if (stripDUL (collapseUnsafe (pyStripL x))).isEmpty then "document.pdf".data
       else
         (if ((splitExtL (stripDUL (collapseUnsafe (pyStripL x)))).1.rdropWhile
               duChar).isEmpty then
            "document".data
          else (splitExtL (stripDUL (collapseUnsafe (pyStripL x)))).1.rdropWhile duChar) ++
           (if (splitExtL (stripDUL (collapseUnsafe (pyStripL x)))).2.isEmpty then ".pdf".data
            else (splitExtL (stripDUL (collapseUnsafe (pyStripL x)))).2)) := rfl
  generalize hS : stripDUL (collapseUnsafe (pyStripL x)) = S at hbody Fsafe Fhead Flast
  rw [hbody]
  by_cases hempty : S.isEmpty
  · left
    rw [if_pos hempty]
  · rw [if_neg hempty]
    right
    have hSne : S ≠ [] := by simpa [List.isEmpty_iff] using hempty
    by_cases hdot : '.' ∈ S
    · obtain ⟨a, b, hdec, hnb, hbdef, hadef⟩ := dot_decomposition S hdot
      have ha : a ≠ [] := by
        intro h0
        subst h0
        have h1 := Fhead '.' (by rw [hdec]; rfl)
        exact absurd h1 (by decide)
      have hb : b ≠ [] := by
        intro h0
        subst h0
        have h1 := Flast '.' (by rw [hdec, List.getLast?_append_of_ne_nil _ (by simp)]; rfl)
        exact absurd h1 (by decide)
      have hblast : ∀ c, b.getLast? = some c → duChar c = false := by
        intro c hc
        refine Flast c ?_
        rw [hdec, List.getLast?_append_of_ne_nil _ (by simp),
          show ('.' :: b) = ['.'] ++ b from rfl, List.getLast?_append_of_ne_nil _ hb]
        exact hc
      have hbsafe : ∀ c ∈ b, safeChar c = true := by
        intro c hc
        exact Fsafe c (by rw [hdec]; exact List.mem_append_right _ (by simp [hc]))
      have hsplit := splitExtL_split a b ha hb hnb
      rw [hdec, hsplit]
      simp only [List.isEmpty_cons, Bool.false_eq_true, if_false]
      by_cases hstem1 : (a.rdropWhile duChar).isEmpty
      · rw [if_pos hstem1]
        exact ⟨"document".data, b, rfl, by decide, hb, by decide, hbsafe, by decide, by decide,
          hnb, hblast⟩
      · rw [if_neg hstem1]
        have hs1ne : a.rdropWhile duChar ≠ [] := by simpa [List.isEmpty_iff] using hstem1
        refine ⟨a.rdropWhile duChar, b, rfl, hs1ne, hb, ?_, hbsafe, ?_,
          rdropWhile_getLast?_not duChar a, hnb, hblast⟩
        · intro c hc
          have h1 := (List.rdropWhile_prefix duChar a).subset hc
          exact Fsafe c (by rw [hdec]; exact List.mem_append_left _ h1)
        · intro c hc
          apply Fhead
          have h1 : a.head? = (a.rdropWhile duChar).head? :=
            prefix_head? _ a (List.rdropWhile_prefix duChar a) hs1ne
          have h2 : S.head? = a.head? := by
            rw [hdec]
            exact prefix_head? a _ ⟨'.' :: b, rfl⟩ ha
          rw [h2, h1, hc]
    · have hsplit := splitExtL_no_dot S hdot
      rw [hsplit]
      have hstem1 : S.rdropWhile duChar = S := rdropWhile_eq_self_of_getLast? duChar S Flast
      simp only [hstem1]
      rw [if_neg hempty]
      simp only [List.isEmpty_nil, if_true]
      exact ⟨S, "pdf".data, rfl, hSne, by decide, Fsafe, by decide, Fhead, Flast, by decide,
        by decide⟩

theorem sanitizeL_fixed (stem tail : List Char)
    (hstem : stem ≠ []) (htail : tail ≠ [])
    (hsafe1 : ∀ c ∈ stem, safeChar c = true) (hsafe2 : ∀ c ∈ tail, safeChar c = true)
    (hhead : ∀ c, stem.head? = some c → duChar c = false)
    (hslast : ∀ c, stem.getLast? = some c → duChar c = false)
    (hnd : '.' ∉ tail)
    (htlast : ∀ c, tail.getLast? = some c → duChar c = false) :
    sanitizeL (stem ++ '.' :: tail) = stem ++ '.' :: tail := by
  have hall : ∀ c ∈ stem ++ '.' :: tail, safeChar c = true := by
    intro c hc
    rcases List.mem_append.mp hc with h | h
    · exact hsafe1 c h
    · rcases List.mem_cons.mp h with rfl | h2
      · decide
      · exact hsafe2 c h2
  have hstrip : pyStripL (stem ++ '.' :: tail) = stem ++ '.' :: tail := by
    unfold pyStripL
    rw [dropWhile_all_false _ _ fun c hc => safe_not_ws c (hall c hc),
      rdropWhile_all_false _ _ fun c hc => safe_not_ws c (hall c hc)]
  have hcollapse : collapseUnsafe (stem ++ '.' :: tail) = stem ++ '.' :: tail :=
    collapseGo_all_safe false _ hall
  have hsheads : ∀ c, (stem ++ '.' :: tail).head? = some c → duChar c = false := by
    intro c hc
    apply hhead
    rw [prefix_head? stem (stem ++ '.' :: tail) ⟨'.' :: tail, rfl⟩ hstem] at hc
    exact hc
  have hslast2 : ∀ c, (stem ++ '.' :: tail).getLast? = some c → duChar c = false := by
    intro c hc
    apply htlast
    rw [List.getLast?_append_of_ne_nil _ (by simp),
      show ('.' :: tail) = ['.'] ++ tail from rfl,
      List.getLast?_append_of_ne_nil _ htail] at hc
    exact hc
  have hdu : stripDUL (stem ++ '.' :: tail) = stem ++ '.' :: tail := by
    unfold stripDUL
    rw [safe_head?_not _ hsheads]
    exact rdropWhile_eq_self_of_getLast? duChar _ hslast2
  have hchain : stripDUL (collapseUnsafe (pyStripL (stem ++ '.' :: tail))) =
      stem ++ '.' :: tail := by
    rw [hstrip, hcollapse, hdu]
  have hsplit := splitExtL_split stem tail hstem htail hnd
  have hstem1 : stem.rdropWhile duChar = stem :=
    rdropWhile_eq_self_of_getLast? duChar stem hslast
  have hbody : sanitizeL (stem ++ '.' :: tail) =
      (if (stripDUL (collapseUnsafe (pyStripL (stem ++ '.' :: tail)))).isEmpty then
        "document.pdf".data
       else
         (if ((splitExtL (stripDUL (collapseUnsafe
               (pyStripL (stem ++ '.' :: tail))))).1.rdropWhile duChar).isEmpty then
            "document".data
          else (splitExtL (stripDUL (collapseUnsafe
              (pyStripL (stem ++ '.' :: tail))))).1.rdropWhile duChar) ++
           (if (splitExtL (stripDUL (collapseUnsafe
               (pyStripL (stem ++ '.' :: tail))))).2.isEmpty then ".pdf".data
            else (splitExtL (stripDUL (collapseUnsafe
                (pyStripL (stem ++ '.' :: tail))))).2)) := rfl
  have hne2 : (stem ++ '.' :: tail).isEmpty = false := by
    cases stem with
    | nil => exact absurd rfl hstem
    | cons c t => rfl
  have hne3 : stem.isEmpty = false := by
    cases stem with
    | nil => exact absurd rfl hstem
    | cons c t => rfl
  rw [hbody, hchain, hsplit]
  simp [hne2, hne3, hstem1]

/-- C8: `sanitize_filename` is idempotent, and its output is always
non-empty with a non-empty pathlib stem and a non-empty pathlib suffix
(extension). -/
theorem C8_sanitize_filename_idempotent (x : String) :
    sanitize_filename (sanitize_filename x) = sanitize_filename x ∧
    sanitize_filename x ≠ "" ∧ pathStem (sanitize_filename x) ≠ "" ∧
    pathSuffix (sanitize_filename x) ≠ "" := by
  have hidem : sanitizeL (sanitizeL x.data) = sanitizeL x.data := by
    rcases sanitizeL_shape x.data with hdoc | ⟨stem, tail, heq, h1, h2, h3, h4, h5, h6, h7, h8⟩
    · rw [hdoc]
      decide
    · rw [heq]
      exact sanitizeL_fixed stem tail h1 h2 h3 h4 h5 h6 h7 h8
  refine ⟨?_, ?_, ?_, ?_⟩
  · show String.mk (sanitizeL (String.mk (sanitizeL x.data)).data) = String.mk (sanitizeL x.data)
    exact congrArg String.mk hidem
  · intro h0
    have hl : sanitizeL x.data = [] := congrArg String.data h0
    rcases sanitizeL_shape x.data with hdoc | ⟨stem, tail, heq, h1, _⟩
    · rw [hdoc] at hl
      exact absurd hl (by decide)
    · rw [heq] at hl
      simp at hl
  · show String.mk (splitExtL (sanitizeL x.data)).1 ≠ ""
    rcases sanitizeL_shape x.data with hdoc | ⟨stem, tail, heq, h1, h2, h3, h4, h5, h6, h7, h8⟩
    · rw [hdoc]
      decide
    · rw [heq, splitExtL_split stem tail h1 h2 h7]
      intro h0
      exact h1 (congrArg String.data h0)
  · show String.mk (splitExtL (sanitizeL x.data)).2 ≠ ""
    rcases sanitizeL_shape x.data with hdoc | ⟨stem, tail, heq, h1, h2, h3, h4, h5, h6, h7, h8⟩
    · rw [hdoc]
      decide
    · rw [heq, splitExtL_split stem tail h1 h2 h7]
      intro h0
      have := congrArg String.data h0
      simp at this
